import Mathlib

/-!
# Verification of the GC-Forged-Pylot inference gateway core

Shallow embedding of the core data structures and request handling of the
repository (`src/core/server.py`, `src/core/llm_external.py`,
`src/core/hardware_optimizer.py`) together with proofs and refutations of
the specification claims.

Conventions of the embedding:
* Python `dict`s that preserve insertion order are modelled as association
  lists in insertion order.
* Wall-clock values (`time.time()`, Python floats) are modelled as `ℚ` and
  passed explicitly as a `now` argument to the operations that read the
  clock inside the source.
* Fallible code is modelled with `Option`/`Except`.
-/

set_option autoImplicit false

namespace GCPylot

/-! ## The response cache (`ModelCache`, server.py lines 36-133)

`self.cache` is a Python dict `key ↦ (value, timestamp)`; we model it as a
list of `(key, value, timestamp)` triples in insertion order, because the
eviction code iterates the dict in that order (`min` keeps the first
minimal element).  The cached value type is a parameter `α` (the source
stores arbitrary response objects). -/

/-- Entries of the cache: key, cached value, insertion timestamp. -/
abbrev Entry (α : Type) := String × α × ℚ

/-- Model of `ModelCache.__init__`: the entry dict plus configuration and
the hit/miss counters. -/
structure ModelCache (α : Type) where
  entries : List (Entry α)
  maxSize : Nat
  ttl : ℚ
  hits : Nat
  misses : Nat
deriving Repr

/-- Dict lookup `key in self.cache` / `self.cache[key]`. -/
def lookupEntry {α : Type} (k : String) : List (Entry α) → Option (α × ℚ)
  | [] => none
  | (k', v, ts) :: es => if k' = k then some (v, ts) else lookupEntry k es

/-- `del self.cache[key]`: removes the entry with the given key (keys are
unique in a dict, so removing the first occurrence is exact). -/
def eraseKey {α : Type} (k : String) : List (Entry α) → List (Entry α)
  | [] => []
  | (k', v, ts) :: es => if k' = k then es else (k', v, ts) :: eraseKey k es

/-- `self.cache[key] = (value, now)`: a Python dict assignment keeps the
position of an existing key and appends a fresh key at the end. -/
def upsert {α : Type} (k : String) (v : α) (now : ℚ) :
    List (Entry α) → List (Entry α)
  | [] => [(k, v, now)]
  | (k', v', ts) :: es =>
      if k' = k then (k, v, now) :: es else (k', v', ts) :: upsert k v now es

/-- `min(self.cache.items(), key=lambda x: x[1][1])` on a non-empty dict:
Python's `min` keeps the first element among ties, i.e. it replaces the
current best only on a strictly smaller timestamp. -/
def oldestEntry {α : Type} (e : Entry α) (es : List (Entry α)) : Entry α :=
  es.foldl (fun best x => if x.2.2 < best.2.2 then x else best) e

/-- `ModelCache.get` (server.py lines 70-91), with the `time.time()` call
passed in as `now`.  Returns the cached value (or `None`) together with the
updated cache state. -/
def ModelCache.get {α : Type} (c : ModelCache α) (key : String) (now : ℚ) :
    Option α × ModelCache α :=
  match lookupEntry key c.entries with
  | some (v, ts) =>
      if now - ts ≤ c.ttl then
        (some v, { c with hits := c.hits + 1 })
      else
        (none, { c with entries := eraseKey key c.entries,
                        misses := c.misses + 1 })
  | none => (none, { c with misses := c.misses + 1 })

/-- The eviction step at the head of `ModelCache.set` (server.py lines
101-106): if `len(self.cache) >= self.max_size`, delete the entry with the
minimal timestamp (Python's `min` over dict items; on an empty dict the
source's `min([])` would raise `ValueError` — that branch is only
reachable with `max_size = 0` and is modelled as a no-op eviction). -/
def evictIfFull {α : Type} (c : ModelCache α) : List (Entry α) :=
  if c.entries.length ≥ c.maxSize then
    match c.entries with
    | [] => ([] : List (Entry α))
    | e :: rest => eraseKey (oldestEntry e rest).1 (e :: rest)
  else c.entries

def ModelCache.set {α : Type} (c : ModelCache α) (key : String) (v : α)
    (now : ℚ) : ModelCache α :=
  { c with entries := upsert key v now (evictIfFull c) }

/-! ### Basic lemmas about the entry list -/

theorem lookupEntry_eq_some {α : Type} {k : String} {v : α} {ts : ℚ} :
    ∀ {es : List (Entry α)}, lookupEntry k es = some (v, ts) →
      (k, v, ts) ∈ es
  | [], h => by simp [lookupEntry] at h
  | (k', v', ts') :: es, h => by
      by_cases hk : k' = k
      · subst hk
        simp only [lookupEntry, if_pos rfl, Option.some.injEq, Prod.mk.injEq] at h
        obtain ⟨rfl, rfl⟩ := h
        exact List.mem_cons_self _ _
      · simp only [lookupEntry, if_neg hk] at h
        exact List.mem_cons_of_mem _ (lookupEntry_eq_some h)

theorem lookupEntry_eq_none_of_forall {α : Type} {k : String} :
    ∀ {es : List (Entry α)}, (∀ e ∈ es, e.1 ≠ k) → lookupEntry k es = none
  | [], _ => rfl
  | (k', v', ts') :: es, h => by
      simp only [lookupEntry]
      rw [if_neg (h _ (List.mem_cons_self _ _))]
      exact lookupEntry_eq_none_of_forall fun e he => h e (List.mem_cons_of_mem _ he)

/-- Keys are unique in a Python dict; we track the corresponding invariant
on the entry list where we need it. -/
def KeysDistinct {α : Type} (es : List (Entry α)) : Prop :=
  es.Pairwise (fun e e' => e.1 ≠ e'.1)

theorem lookupEntry_eraseKey {α : Type} (k : String) :
    ∀ es : List (Entry α), KeysDistinct es →
      lookupEntry k (eraseKey k es) = none
  | [], _ => rfl
  | (k', v', ts') :: es, h => by
      rcases List.pairwise_cons.mp h with ⟨hhead, htail⟩
      by_cases hk : k' = k
      · subst hk
        simp only [eraseKey, if_pos rfl]
        exact lookupEntry_eq_none_of_forall fun e he =>
          Ne.symm (hhead e he)
      · simp only [eraseKey, if_neg hk, lookupEntry, if_neg hk]
        exact lookupEntry_eraseKey k es htail

/-- Unfolding equation for `get` on a successful lookup. -/
theorem get_eq_of_lookup_some {α : Type} (c : ModelCache α) (k : String)
    (now : ℚ) {v : α} {ts : ℚ}
    (hl : lookupEntry k c.entries = some (v, ts)) :
    c.get k now =
      if now - ts ≤ c.ttl then (some v, { c with hits := c.hits + 1 })
      else (none, { c with entries := eraseKey k c.entries,
                           misses := c.misses + 1 }) := by
  unfold ModelCache.get
  rw [hl]

/-- Unfolding equation for `get` on a failed lookup. -/
theorem get_eq_of_lookup_none {α : Type} (c : ModelCache α) (k : String)
    (now : ℚ) (hl : lookupEntry k c.entries = none) :
    c.get k now = (none, { c with misses := c.misses + 1 }) := by
  unfold ModelCache.get
  rw [hl]

/-! ## Claim C4: TTL freshness of `get` -/

/-- **C4** (confirmed).  `ModelCache.get` returns a stored value only if
`now - insertion_time ≤ TTL`, and when it finds the entry expired it
removes it from the map (so a subsequent lookup misses) and reports a miss
(returns `none` and increments the miss counter). -/
theorem C4_get_ttl_freshness {α : Type} (c : ModelCache α) (k : String)
    (now : ℚ) (hdk : KeysDistinct c.entries) :
    (∀ v c', c.get k now = (some v, c') →
        ∃ ts, lookupEntry k c.entries = some (v, ts) ∧ now - ts ≤ c.ttl) ∧
    (∀ v ts, lookupEntry k c.entries = some (v, ts) → c.ttl < now - ts →
        (c.get k now).1 = none ∧
        lookupEntry k (c.get k now).2.entries = none ∧
        (c.get k now).2.misses = c.misses + 1) := by
  constructor
  · intro v c' h
    cases hl : lookupEntry k c.entries with
    | none =>
        rw [get_eq_of_lookup_none c k now hl] at h
        simp at h
    | some p =>
        obtain ⟨v0, ts0⟩ := p
        rw [get_eq_of_lookup_some c k now hl] at h
        by_cases hfresh : now - ts0 ≤ c.ttl
        · rw [if_pos hfresh] at h
          have hv : v0 = v := by simpa using congrArg Prod.fst h
          subst hv
          exact ⟨ts0, rfl, hfresh⟩
        · rw [if_neg hfresh] at h
          simp at h
  · intro v ts hl hexp
    have hnot : ¬ (now - ts ≤ c.ttl) := not_le.mpr hexp
    rw [get_eq_of_lookup_some c k now hl, if_neg hnot]
    exact ⟨rfl, lookupEntry_eraseKey k c.entries hdk, rfl⟩

/-- Concrete witness for C4: a cache holding `("k", "v")` inserted at time
`0` with TTL `10`, queried at time `20`: the entry is expired, `get`
misses and removes it. -/
theorem C4_witness :
    (ModelCache.get ⟨[("k", "v", 0)], 100, 10, 0, 0⟩ "k" 20).1 = none ∧
    lookupEntry "k"
      (ModelCache.get ⟨[("k", "v", 0)], 100, 10, 0, 0⟩ "k" 20).2.entries
        = none ∧
    (ModelCache.get ⟨[("k", "v", 0)], 100, 10, 0, 0⟩ "k" 20).2.misses = 0 + 1 :=
  (C4_get_ttl_freshness (α := String) ⟨[("k", "v", 0)], 100, 10, 0, 0⟩ "k" 20
      (by simp [KeysDistinct])).2 "v" 0 (by simp [lookupEntry]) (by norm_num)

/-! ## Claim C3: eviction policy of `set` -/

theorem oldestEntry_cons {α : Type} (e x : Entry α) (es : List (Entry α)) :
    oldestEntry e (x :: es) =
      oldestEntry (if x.2.2 < e.2.2 then x else e) es := rfl

/-- `oldestEntry` returns the first entry attaining the minimal timestamp:
it is in the list, its timestamp is `≤` every timestamp, and every entry
strictly before it has a strictly larger timestamp. -/
theorem oldestEntry_spec {α : Type} :
    ∀ (es : List (Entry α)) (e : Entry α),
      ∃ l1 l2, e :: es = l1 ++ (oldestEntry e es) :: l2 ∧
        (∀ x ∈ e :: es, (oldestEntry e es).2.2 ≤ x.2.2) ∧
        (∀ x ∈ l1, (oldestEntry e es).2.2 < x.2.2)
  | [], e => ⟨[], [], rfl, by simp [oldestEntry], by simp⟩
  | x :: es, e => by
      rw [oldestEntry_cons]
      by_cases hx : x.2.2 < e.2.2
      · rw [if_pos hx]
        obtain ⟨l1, l2, hdec, hmin, hstrict⟩ := oldestEntry_spec es x
        refine ⟨e :: l1, l2, ?_, ?_, ?_⟩
        · simpa using hdec
        · intro y hy
          rcases List.mem_cons.mp hy with rfl | hy
          · exact le_of_lt (lt_of_le_of_lt (hmin x (List.mem_cons_self _ _)) hx)
          · exact hmin y hy
        · intro y hy
          rcases List.mem_cons.mp hy with rfl | hy
          · exact lt_of_le_of_lt (hmin x (List.mem_cons_self _ _)) hx
          · exact hstrict y hy
      · rw [if_neg hx]
        have he : e.2.2 ≤ x.2.2 := not_lt.mp hx
        obtain ⟨l1, l2, hdec, hmin, hstrict⟩ := oldestEntry_spec es e
        cases l1 with
        | nil =>
            simp only [List.nil_append, List.cons.injEq] at hdec
            obtain ⟨hre, hes⟩ := hdec
            refine ⟨[], x :: es, ?_, ?_, by simp⟩
            · rw [List.nil_append, ← hre]
            · intro z hz
              rcases List.mem_cons.mp hz with rfl | hz
              · exact hmin z (List.mem_cons_self _ _)
              · rcases List.mem_cons.mp hz with rfl | hz
                · exact le_trans (hmin e (List.mem_cons_self _ _)) he
                · exact hmin z (List.mem_cons_of_mem _ hz)
        | cons a l1' =>
            simp only [List.cons_append, List.cons.injEq] at hdec
            obtain ⟨ha, hes⟩ := hdec
            have hlt_e : (oldestEntry e es).2.2 < e.2.2 := by
              have := hstrict a (List.mem_cons_self _ _)
              rwa [← ha] at this
            refine ⟨e :: x :: l1', l2, ?_, ?_, ?_⟩
            · rw [List.cons_append, List.cons_append, ← hes]
            · intro z hz
              rcases List.mem_cons.mp hz with rfl | hz
              · exact hmin z (List.mem_cons_self _ _)
              · rcases List.mem_cons.mp hz with rfl | hz
                · exact le_trans (le_of_lt hlt_e) he
                · exact hmin z (List.mem_cons_of_mem _ hz)
            · intro z hz
              rcases List.mem_cons.mp hz with rfl | hz
              · exact hlt_e
              · rcases List.mem_cons.mp hz with rfl | hz
                · exact lt_of_lt_of_le hlt_e he
                · exact hstrict z (List.mem_cons_of_mem _ hz)

/-- **C3 amended** (the original claim is refuted by
`C3_counterexample`).  When `set` is called with the entry map at
capacity, the entry it evicts is the one with the *oldest insertion
timestamp* — the first such entry in dict order on ties — regardless of
any intervening `get` hits: a `get` hit leaves the entry list (positions,
values and timestamps) completely unchanged, so recency of use plays no
role in eviction. -/
theorem C3_set_evicts_oldest_insertion {α : Type} (c : ModelCache α)
    (k : String) (v : α) (now : ℚ)
    (hfull : c.maxSize ≤ c.entries.length) (hne : c.entries ≠ []) :
    (∃ l1 l2 evicted,
      c.entries = l1 ++ evicted :: l2 ∧
      (∀ x ∈ c.entries, evicted.2.2 ≤ x.2.2) ∧
      (∀ x ∈ l1, evicted.2.2 < x.2.2) ∧
      (c.set k v now).entries = upsert k v now (eraseKey evicted.1 c.entries)) ∧
    (∀ (key : String) (now' : ℚ) (v' : α) (c' : ModelCache α),
        c.get key now' = (some v', c') → c'.entries = c.entries) := by
  constructor
  · cases hents : c.entries with
    | nil => exact absurd hents hne
    | cons e rest =>
        obtain ⟨l1, l2, hdec, hmin, hstrict⟩ := oldestEntry_spec rest e
        refine ⟨l1, l2, oldestEntry e rest, hdec, hmin, hstrict, ?_⟩
        show upsert k v now (evictIfFull c) = _
        unfold evictIfFull
        rw [hents] at hfull ⊢
        rw [if_pos hfull]
  · intro key now' v' c' h
    cases hl : lookupEntry key c.entries with
    | none =>
        rw [get_eq_of_lookup_none c key now' hl] at h
        simp at h
    | some p =>
        obtain ⟨v0, ts0⟩ := p
        rw [get_eq_of_lookup_some c key now' hl] at h
        by_cases hfresh : now' - ts0 ≤ c.ttl
        · rw [if_pos hfresh, Prod.mk.injEq] at h
          obtain ⟨h1, h2⟩ := h
          rw [← h2]
        · rw [if_neg hfresh] at h
          simp at h

/-- The concrete run refuting C3: capacity-2 cache; insert `"A"` at time
0 and `"B"` at time 1, then `get "A"` at time 2 (a hit, making `"A"` the
most recently used entry), then `set "C"` at time 3. -/
def cacheC3demo : ModelCache String :=
  ((((ModelCache.set ⟨[], 2, 100, 0, 0⟩ "A" "va" 0).set "B" "vb" 1).get
      "A" 2).2).set "C" "vc" 3

/-- **C3 counterexample**.  In the run of `cacheC3demo`, a
least-recently-used policy in which a `get` hit counts as a use would
evict `"B"` and keep `"A"`; the code evicts `"A"` (the oldest *inserted*)
and keeps `"B"`, refuting the claim. -/
theorem C3_counterexample :
    lookupEntry "A" cacheC3demo.entries = none ∧
    lookupEntry "B" cacheC3demo.entries = some ("vb", 1) ∧
    cacheC3demo.hits = 1 := by
  norm_num [cacheC3demo, ModelCache.set, ModelCache.get, evictIfFull,
    lookupEntry, eraseKey, upsert, oldestEntry]
  decide

/-- Witness for C3's amended theorem: the state just before the final
`set` of the demo run, at capacity with `"A"` the oldest entry. -/
theorem C3_amended_witness :
    ∃ l1 l2 evicted,
      ((((ModelCache.set ⟨[], 2, 100, 0, 0⟩ "A" "va" 0).set "B" "vb" 1).get
          "A" 2).2).entries = l1 ++ evicted :: l2 ∧
      (∀ x ∈ ((((ModelCache.set ⟨[], 2, 100, 0, 0⟩ "A" "va" 0).set "B" "vb"
          1).get "A" 2).2).entries, evicted.2.2 ≤ x.2.2) ∧
      (∀ x ∈ l1, evicted.2.2 < x.2.2) ∧
      (((((ModelCache.set ⟨[], 2, 100, 0, 0⟩ "A" "va" 0).set "B" "vb" 1).get
          "A" 2).2).set "C" "vc" 3).entries =
        upsert "C" "vc" 3 (eraseKey evicted.1
          ((((ModelCache.set ⟨[], 2, 100, 0, 0⟩ "A" "va" 0).set "B" "vb"
              1).get "A" 2).2).entries) :=
  (C3_set_evicts_oldest_insertion
      ((((ModelCache.set ⟨[], 2, 100, 0, 0⟩ "A" "va" 0).set "B" "vb" 1).get
          "A" 2).2) "C" "vc" 3
      (by norm_num [ModelCache.set, ModelCache.get, evictIfFull, lookupEntry,
        eraseKey, upsert, oldestEntry]; decide)
      (by norm_num [ModelCache.set, ModelCache.get, evictIfFull, lookupEntry,
        eraseKey, upsert, oldestEntry]; decide)).1

/-! ## Claim C9: `ExternalLLMAdapter.count_tokens` -/

/-- `ExternalLLMAdapter.count_tokens` (llm_external.py lines 529-540):
`return len(text) // 4 + 1` — Python floor division. -/
def ExternalLLMAdapter.count_tokens (text : String) : Nat :=
  text.length / 4 + 1

/-- **C9 counterexample**.  For the four-character text `"abcd"` the
adapter returns `4 / 4 + 1 = 2`, while `ceil(len/4) = (4+3)/4 = 1`;
likewise the empty text gives `1`, not `ceil(0/4) = 0`. -/
theorem C9_counterexample :
    ExternalLLMAdapter.count_tokens "abcd" = 2 ∧ ("abcd".length + 3) / 4 = 1 ∧
    ExternalLLMAdapter.count_tokens "" = 1 ∧ ("".length + 3) / 4 = 0 := by
  refine ⟨rfl, rfl, rfl, rfl⟩

/-- **C9 amended** (the original claim is refuted by
`C9_counterexample`).  `count_tokens(text)` returns `len(text) // 4 + 1`:
that equals `ceil(len(text)/4)` when the length is not a multiple of 4,
and exceeds it by exactly one when `4 ∣ len(text)` (in particular it
returns 1 on the empty text). -/
theorem C9_count_tokens_floor_plus_one (text : String) :
    ExternalLLMAdapter.count_tokens text =
      (if text.length % 4 = 0 then (text.length + 3) / 4 + 1
       else (text.length + 3) / 4) := by
  unfold ExternalLLMAdapter.count_tokens
  rcases Nat.eq_zero_or_pos (text.length % 4) with h | h
  · rw [if_pos h]
    omega
  · rw [if_neg (by omega)]
    omega

/-! ## Claim C8: persistence of the optimization profile
(`HardwareOptimizer._save_profile`, hardware_optimizer.py lines 561-582)

The save is a sequence of file-system effects; we embed that effect trace.
The source runs `os.makedirs(dirname, exist_ok=True)` and then
`open(self.profile_path, 'w')` followed by `json.dump(..., f)` — a direct
truncating write to the target path.  No temporary file and no rename
appear anywhere in the function. -/

/-- File-system effects relevant to profile persistence.  `makedirsParent
p` stands for `os.makedirs(os.path.dirname(p), exist_ok=True)`. -/
inductive FsOp where
  | makedirsParent (path : String)
  | openTrunc (path : String)
  | write (path : String) (content : String)
  | close (path : String)
  | rename (src : String) (dst : String)
deriving DecidableEq, Repr

/-- The effect trace of `_save_profile`: ensure the directory, open the
target for writing (truncating it), dump the JSON document, close. -/
def saveProfileOps (profilePath : String) (doc : String) : List FsOp :=
  [FsOp.makedirsParent profilePath,
   FsOp.openTrunc profilePath,
   FsOp.write profilePath doc,
   FsOp.close profilePath]

/-- Does an operation modify the contents stored at `path`? -/
def touchesContent (path : String) : FsOp → Bool
  | FsOp.openTrunc p => p = path
  | FsOp.write p _ => p = path
  | FsOp.rename _ dst => dst = path
  | _ => false

def isRename : FsOp → Bool
  | FsOp.rename _ _ => true
  | _ => false

/-- The sequence of contents a concurrent reader of `path` can observe
while the trace executes (one snapshot before any op and one after each
op): `open(path, 'w')` truncates to the empty file, a write fills in the
new content, a rename atomically replaces the content. -/
def observableDuring (ops : List FsOp) (path : String) (initial : String)
    (tmpContent : String → String) : List String :=
  ops.scanl
    (fun cur op =>
      match op with
      | FsOp.openTrunc p => if p = path then "" else cur
      | FsOp.write p content => if p = path then content else cur
      | FsOp.rename _ dst => if dst = path then tmpContent dst else cur
      | _ => cur)
    initial

/-- Modelled from the spec: "Writes go via write-to-temp-then-rename so
readers never observe a partial file" — the only operation that may touch
the target's contents is a single rename from a distinct temporary path.
(The implementation of this discipline is absent from `_save_profile`;
this predicate captures the spec's wording for comparison.) -/
def writeToTempThenRename (ops : List FsOp) (target : String) : Prop :=
  ∃ tmp, tmp ≠ target ∧
    ops.filter (touchesContent target) = [FsOp.rename tmp target]

/-- A JSON document produced by `json.dump` of a dict is never empty (it
starts with a brace); the empty string is a truncated, syntactically
invalid document. -/
def looksLikeJsonObject (s : String) : Bool :=
  s.data.head? = some '{'

/-- **C8 counterexample**.  The effect trace of `_save_profile` writes the
target path directly: it contains no rename at all (so it does not have
the write-to-temp-then-rename shape), and a reader concurrent with the
save can observe the empty — truncated, syntactically invalid — file
contents right after the truncating open. -/
theorem C8_counterexample :
    (saveProfileOps "profile.json" "doc").filter isRename = [] ∧
    ¬ writeToTempThenRename (saveProfileOps "profile.json" "doc")
        "profile.json" ∧
    "" ∈ observableDuring (saveProfileOps "profile.json" "doc")
        "profile.json" "old" (fun _ => "doc") ∧
    looksLikeJsonObject "" = false := by
  refine ⟨rfl, ?_, ?_, rfl⟩
  · rintro ⟨tmp, htmp, hfilter⟩
    simp [saveProfileOps, touchesContent, List.filter] at hfilter
  · simp [saveProfileOps, observableDuring, List.scanl]

/-- **C8 amended** (the original claim is refuted by
`C8_counterexample`).  `_save_profile` truncates the profile file in place
and writes the document directly to it — no temporary file, no rename —
so a reader concurrent with a save can observe the empty truncated file
between the open and the completed write; the observable sequence of
contents is exactly `old, old, "", doc, doc`. -/
theorem C8_save_writes_target_in_place (path doc initial : String)
    (tmpContent : String → String) :
    (saveProfileOps path doc).filter isRename = [] ∧
    observableDuring (saveProfileOps path doc) path initial tmpContent =
      [initial, initial, "", doc, doc] ∧
    looksLikeJsonObject "" = false := by
  refine ⟨rfl, ?_, rfl⟩
  simp [saveProfileOps, observableDuring, List.scanl]

/-! ## Claim C6: request-body validation for `POST /v1/completions`
(`CompletionRequest`, server.py lines 229-237)

The pydantic model constrains `temperature` to `ge=0.0, le=1.0` (not the
OpenAI range 0.0–2.0), `top_p` to `[0, 1]`, `top_k ≥ 0`,
`repeat_penalty ≥ 0`, and puts **no bounds at all** on `max_tokens`.
Python floats are modelled as `ℚ`. -/

structure CompletionRequest where
  prompt : String
  max_tokens : Int := 256
  temperature : ℚ := 7/10
  top_p : ℚ := 95/100
  top_k : Int := 40
  repeat_penalty : ℚ := 11/10
  stream : Bool := false
  stop : List String := []

/-- The conjunction of the `Field` constraints of `CompletionRequest`
(server.py lines 229-237): FastAPI accepts a parsed body exactly when
these hold. -/
def validateCompletionRequest (r : CompletionRequest) : Bool :=
  decide (0 ≤ r.temperature) && decide (r.temperature ≤ 1) &&
  decide (0 ≤ r.top_p) && decide (r.top_p ≤ 1) &&
  decide (0 ≤ r.top_k) && decide (0 ≤ r.repeat_penalty)

/-- FastAPI's request pipeline for the completion route: a body that
fails the pydantic constraints is answered `422`; otherwise the handler
runs and raises `503` when no model is loaded (server.py line 298). -/
def completionValidationStatus (r : CompletionRequest)
    (modelLoaded : Bool) : Nat :=
  if validateCompletionRequest r = false then 422
  else if modelLoaded = false then 503
  else 200

/-- **C6 counterexample**.  `temperature = 2.0` lies in the claimed
accepted range `0.0–2.0` but the code rejects it (422), and
`max_tokens = 0` violates the claimed bound `≥ 1` but the code accepts
it. -/
theorem C6_counterexample :
    validateCompletionRequest { prompt := "hi", temperature := 2 } = false ∧
    completionValidationStatus { prompt := "hi", temperature := 2 } true
      = 422 ∧
    validateCompletionRequest { prompt := "hi", max_tokens := 0 } = true := by
  refine ⟨?_, ?_, ?_⟩
  · simp only [validateCompletionRequest]
    norm_num
  · simp only [completionValidationStatus, validateCompletionRequest]
    norm_num
  · simp only [validateCompletionRequest]
    norm_num

/-- **C6 amended** (the original claim is refuted by
`C6_counterexample`).  A parsed `/v1/completions` body is accepted exactly
when `0 ≤ temperature ≤ 1.0`, `0 ≤ top_p ≤ 1`, `top_k ≥ 0` and
`repeat_penalty ≥ 0`; `max_tokens` is entirely unconstrained (any integer
is accepted, default 256), and a body failing validation is answered with
HTTP 422. -/
theorem C6_validation_characterization (r : CompletionRequest) :
    (validateCompletionRequest r = true ↔
      (0 ≤ r.temperature ∧ r.temperature ≤ 1 ∧ 0 ≤ r.top_p ∧ r.top_p ≤ 1 ∧
        0 ≤ r.top_k ∧ 0 ≤ r.repeat_penalty)) ∧
    (∀ mt : Int, validateCompletionRequest { r with max_tokens := mt } =
        validateCompletionRequest r) ∧
    (∀ loaded : Bool, validateCompletionRequest r = false →
        completionValidationStatus r loaded = 422) := by
  refine ⟨?_, fun mt => rfl, fun loaded h => by
    simp [completionValidationStatus, h]⟩
  simp [validateCompletionRequest, and_assoc]

/-- Witness for C6's amended theorem at the rejected concrete body with
`temperature = 2`. -/
theorem C6_amended_witness :
    completionValidationStatus { prompt := "hi", temperature := 2 } true
      = 422 :=
  (C6_validation_characterization { prompt := "hi", temperature := 2 }).2.2
    true
    (by simp only [validateCompletionRequest]; norm_num)

/-! ## The cache fingerprint: `ModelCache.get_key` (server.py lines 55-68)

`get_key` returns the Python f-string `f"{prompt}:{param_str}"` where
`param_str = json.dumps(params, sort_keys=True)`.  We embed the relevant
fragment of `json.dumps` (default options: `ensure_ascii=True`, separators
`", "` / `": "`) over `List Char`:

* strings are escaped per `json.dumps`: `"` and `\` get a backslash, the
  short control escapes `\n \r \t \b \f` are used, all other control
  characters and all non-ASCII characters become `\uXXXX` (astral code
  points become a surrogate pair);
* the keyword parameters of the `create_completion` call site (server.py
  lines 302-310) are `max_tokens, temperature, top_p, top_k,
  repeat_penalty, stop`, which `sort_keys=True` orders as
  `max_tokens, repeat_penalty, stop, temperature, top_k, top_p`;
* Python ints are rendered in decimal; Python floats are rendered by
  `repr`, an injective map into the characters `0-9 . - + e` (plus
  `inf`/`nan`).  We model the float-valued parameters as `ℚ` and render
  them with an injective map into the characters `0-9 - /`; every
  structural property used below (injectivity of the rendering and
  absence of the JSON delimiter characters `"` `{` `:` and of `m`) holds
  for both renderings. -/

/-- Lowercase hexadecimal digit, also used for decimal digits. -/
def hexDigit (n : Nat) : Char :=
  if n < 10 then Char.ofNat ('0'.toNat + n) else Char.ofNat ('a'.toNat + (n - 10))

/-- The four hex digits of a code unit, most significant first. -/
def hex4 (n : Nat) : List Char :=
  [hexDigit (n / 4096 % 16), hexDigit (n / 256 % 16),
   hexDigit (n / 16 % 16), hexDigit (n % 16)]

/-- `json.dumps` escaping of one character (`ensure_ascii=True`). -/
def escChar (c : Char) : List Char :=
  if c = '"' then ['\\', '"']
  else if c = '\\' then ['\\', '\\']
  else if c = '\n' then ['\\', 'n']
  else if c = '\r' then ['\\', 'r']
  else if c = '\t' then ['\\', 't']
  else if c = '\x08' then ['\\', 'b']
  else if c = '\x0c' then ['\\', 'f']
  else if c.toNat < 0x20 then '\\' :: 'u' :: hex4 c.toNat
  else if c.toNat ≤ 0x7e then [c]
  else if c.toNat < 0x10000 then '\\' :: 'u' :: hex4 c.toNat
  else '\\' :: 'u' :: hex4 (0xd800 + (c.toNat - 0x10000) / 0x400) ++
       '\\' :: 'u' :: hex4 (0xdc00 + (c.toNat - 0x10000) % 0x400)

/-- `json.dumps` escaping of a character sequence. -/
def escape : List Char → List Char
  | [] => []
  | c :: s => escChar c ++ escape s

/-- A JSON string literal: quote, escaped content, quote. -/
def jsonString (s : String) : List Char :=
  '"' :: escape s.data ++ ['"']

/-- Decimal digits of `n`, least significant first (empty for 0). -/
def natDigitsRev (n : Nat) : List Char :=
  if h : n = 0 then [] else hexDigit (n % 10) :: natDigitsRev (n / 10)
termination_by n
decreasing_by exact Nat.div_lt_self (Nat.pos_of_ne_zero h) (by norm_num)

/-- Decimal rendering of a natural number. -/
def natStr (n : Nat) : List Char :=
  if n = 0 then ['0'] else (natDigitsRev n).reverse

/-- Decimal rendering of a Python int. -/
def intStr (i : Int) : List Char :=
  if i < 0 then '-' :: natStr i.natAbs else natStr i.natAbs

/-- Injective rendering of the `ℚ`-modelled float parameters (see the
section comment: stands in for Python's injective `repr` of floats). -/
def ratStr (q : ℚ) : List Char :=
  intStr q.num ++ '/' :: natStr q.den

/-- The elements of a JSON array, separated by `", "`. -/
def jsonItems : List String → List Char
  | [] => []
  | [x] => jsonString x
  | x :: xs => jsonString x ++ ',' :: ' ' :: jsonItems xs

/-- A JSON array of strings (the `stop` parameter). -/
def jsonList (xs : List String) : List Char :=
  '[' :: jsonItems xs ++ [']']

/-- The keyword parameters passed to `get_key` by `create_completion`
(server.py lines 302-310). -/
structure GenParams where
  max_tokens : Int
  temperature : ℚ
  top_p : ℚ
  top_k : Int
  repeat_penalty : ℚ
  stop : List String
deriving Repr

/-- `json.dumps(params, sort_keys=True)` for the `create_completion`
parameter set: keys in sorted order `max_tokens, repeat_penalty, stop,
temperature, top_k, top_p`, default separators `", "` and `": "`. -/
def dumpsGenParams (p : GenParams) : List Char :=
  '{' :: ("\"max_tokens\": ").toList ++ intStr p.max_tokens ++
  (", \"repeat_penalty\": ").toList ++ ratStr p.repeat_penalty ++
  (", \"stop\": ").toList ++ jsonList p.stop ++
  (", \"temperature\": ").toList ++ ratStr p.temperature ++
  (", \"top_k\": ").toList ++ intStr p.top_k ++
  (", \"top_p\": ").toList ++ ratStr p.top_p ++ ['}']

/-- `ModelCache.get_key` (server.py lines 55-68):
`f"{prompt}:{json.dumps(params, sort_keys=True)}"`, as a character
sequence. -/
def get_key (prompt : String) (p : GenParams) : List Char :=
  prompt.data ++ ':' :: dumpsGenParams p

/-! ## Claim C5: SSE streaming framing
(`LlamaServer._streaming_completion` lines 722-765 and
`LlamaServer._streaming_chat` lines 767-812)

The backend generator is modelled by the finite list of chunks it yields
plus an optional exception raised when the loop pulls past them (an
exception raised by the `generate`/`chat` call itself is the case of zero
chunks).  Each loop iteration yields one `data: <json>\n\n` frame and
breaks once a chunk carries a truthy `finish_reason`; after the loop (or
from the `except` handler, after a final `data: {error}` frame) exactly
one `data: [DONE]\n\n` frame is emitted. -/

/-- One chunk produced by the backend generator, with the
`metadata.get("finish_reason")` field. -/
structure GenChunk where
  text : String
  finish_reason : Option String
deriving Repr

/-- Python truthiness of `metadata.get("finish_reason")`: `None` and the
empty string are falsy. -/
def truthy : Option String → Bool
  | none => false
  | some s => !s.isEmpty

/-- The observable behaviour of a backend generator: the chunks it
yields, and an exception message if pulling past them raises. -/
structure GenStream where
  chunks : List GenChunk
  err : Option String
deriving Repr

/-- An SSE data frame `data: <body>\n\n`. -/
def sseFrame (body : List Char) : List Char :=
  ("data: ").toList ++ body ++ ['\n', '\n']

/-- The terminal frame `data: [DONE]\n\n`. -/
def doneFrame : List Char :=
  ("data: [DONE]\n\n").toList

/-- `json.dumps({"error": str(e)})` (server.py lines 764, 811). -/
def errorJson (msg : String) : List Char :=
  '{' :: ("\"error\": ").toList ++ jsonString msg ++ ['}']

/-- The JSON body of one completion streaming chunk (server.py lines
740-755; key order is `json.dumps` insertion order). -/
def completionChunkJson (cid : String) (created : Int) (model : String)
    (c : GenChunk) : List Char :=
  '{' :: ("\"id\": ").toList ++ jsonString cid ++
  (", \"object\": \"text_completion\", \"created\": ").toList ++
  intStr created ++
  (", \"model\": ").toList ++ jsonString model ++
  (", \"choices\": [").toList ++
  '{' :: ("\"text\": ").toList ++ jsonString c.text ++
  (", \"index\": 0, \"logprobs\": null, \"finish_reason\": ").toList ++
  (match c.finish_reason with
   | none => ("null").toList
   | some fr => jsonString fr) ++
  ['}', ']', '}']

/-- The JSON body of one chat streaming chunk (server.py lines 784-800);
the delta's `role` is `"assistant"` only on the first chunk (`i == 0`). -/
def chatChunkJson (cid : String) (created : Int) (model : String)
    (i : Nat) (c : GenChunk) : List Char :=
  '{' :: ("\"id\": ").toList ++ jsonString cid ++
  (", \"object\": \"chat.completion.chunk\", \"created\": ").toList ++
  intStr created ++
  (", \"model\": ").toList ++ jsonString model ++
  (", \"choices\": [").toList ++
  '{' :: ("\"index\": 0, \"delta\": ").toList ++
  '{' :: ("\"role\": ").toList ++
  jsonString (if i = 0 then "assistant" else "") ++
  (", \"content\": ").toList ++ jsonString c.text ++
  ['}'] ++
  (", \"finish_reason\": ").toList ++
  (match c.finish_reason with
   | none => ("null").toList
   | some fr => jsonString fr) ++
  ['}', ']', '}']

/-- The common loop of `_streaming_completion` and `_streaming_chat`:
one data frame per chunk (the frame body depends on the enumeration
index), break on a truthy `finish_reason`; on generator exhaustion an
exception yields an error frame; finally the `[DONE]` frame. -/
def streamLoop (frame : Nat → GenChunk → List Char) (i : Nat) :
    List GenChunk → Option String → List (List Char)
  | [], none => [doneFrame]
  | [], some msg => [sseFrame (errorJson msg), doneFrame]
  | c :: rest, e =>
      sseFrame (frame i c) ::
        (if truthy c.finish_reason then [doneFrame]
         else streamLoop frame (i + 1) rest e)

/-- `LlamaServer._streaming_completion` (server.py lines 722-765). -/
def streaming_completion (cid : String) (created : Int) (model : String)
    (g : GenStream) : List (List Char) :=
  streamLoop (fun _ c => completionChunkJson cid created model c) 0
    g.chunks g.err

/-- `LlamaServer._streaming_chat` (server.py lines 767-812). -/
def streaming_chat (cid : String) (created : Int) (model : String)
    (g : GenStream) : List (List Char) :=
  streamLoop (fun i c => chatChunkJson cid created model i c) 0
    g.chunks g.err

/-! ### C5 supporting lemmas -/

theorem sseFrame_ne_doneFrame {body : List Char}
    (h : body.head? = some '{') : sseFrame body ≠ doneFrame := by
  intro he
  have : body ++ ['\n', '\n'] = '[' :: ("DONE]\n\n").toList := by
    have h6 : sseFrame body = ("data: ").toList ++ (body ++ ['\n', '\n']) := by
      simp [sseFrame]
    have h7 : doneFrame = ("data: ").toList ++ ('[' :: ("DONE]\n\n").toList) := by
      rfl
    rw [h6, h7] at he
    exact List.append_cancel_left he
  cases body with
  | nil => simp at h
  | cons b bs =>
      simp only [List.head?_cons, Option.some.injEq] at h
      simp only [List.cons_append, List.cons.injEq] at this
      rw [h] at this
      exact absurd this.1 (by decide)

theorem streamLoop_shape (frame : Nat → GenChunk → List Char)
    (hframe : ∀ i c, (frame i c).head? = some '{') :
    ∀ (chunks : List GenChunk) (e : Option String) (i : Nat),
      streamLoop frame i chunks e ≠ [] ∧
      (streamLoop frame i chunks e).getLast? = some doneFrame ∧
      (streamLoop frame i chunks e).count doneFrame = 1 ∧
      (∀ f ∈ (streamLoop frame i chunks e).dropLast,
        ∃ body, f = sseFrame body ∧ body.head? = some '{')
  | [], none, i => by
      refine ⟨by simp [streamLoop], by simp [streamLoop], ?_, ?_⟩
      · simp [streamLoop, List.count_cons]
      · intro f hf
        simp [streamLoop] at hf
  | [], some msg, i => by
      refine ⟨by simp [streamLoop], by simp [streamLoop], ?_, ?_⟩
      · simp only [streamLoop, List.count_cons, List.count_nil]
        have : sseFrame (errorJson msg) ≠ doneFrame :=
          sseFrame_ne_doneFrame (by simp [errorJson])
        simp [this]
      · intro f hf
        simp only [streamLoop, List.dropLast] at hf
        simp only [List.mem_cons, List.not_mem_nil, or_false] at hf
        exact ⟨errorJson msg, by rw [hf], by simp [errorJson]⟩
  | c :: rest, e, i => by
      by_cases hfin : truthy c.finish_reason
      · refine ⟨by simp [streamLoop], ?_, ?_, ?_⟩
        · simp [streamLoop, hfin]
        · have hne : sseFrame (frame i c) ≠ doneFrame :=
            sseFrame_ne_doneFrame (hframe i c)
          simp [streamLoop, hfin, List.count_cons, hne]
        · intro f hf
          simp only [streamLoop, hfin, if_true] at hf
          simp only [List.dropLast, List.mem_cons, List.not_mem_nil,
            or_false] at hf
          exact ⟨frame i c, by rw [hf], hframe i c⟩
      · obtain ⟨ih1, ih2, ih3, ih4⟩ := streamLoop_shape frame hframe rest e (i + 1)
        obtain ⟨y, ys, hL⟩ := List.exists_cons_of_ne_nil ih1
        have hne : sseFrame (frame i c) ≠ doneFrame :=
          sseFrame_ne_doneFrame (hframe i c)
        refine ⟨by simp [streamLoop], ?_, ?_, ?_⟩
        · rw [streamLoop, if_neg hfin, hL, List.getLast?_cons_cons, ← hL]
          exact ih2
        · rw [streamLoop, if_neg hfin]
          simp [List.count_cons, hne, ih3]
        · intro f hf
          rw [streamLoop, if_neg hfin, hL, List.dropLast_cons₂, ← hL] at hf
          rcases List.mem_cons.mp hf with rfl | hf
          · exact ⟨frame i c, rfl, hframe i c⟩
          · exact ih4 f hf

/-- When the generator raises after its chunks (none of which carried a
truthy finish reason), the emitted frames are the data frames followed by
the error frame and then `[DONE]`. -/
theorem streamLoop_err_tail (frame : Nat → GenChunk → List Char) :
    ∀ (chunks : List GenChunk) (i : Nat) (msg : String),
      (∀ c ∈ chunks, truthy c.finish_reason = false) →
      ∃ pre, streamLoop frame i chunks (some msg) =
        pre ++ [sseFrame (errorJson msg), doneFrame]
  | [], i, msg, _ => ⟨[], rfl⟩
  | c :: rest, i, msg, h => by
      have hfin : truthy c.finish_reason = false :=
        h c (List.mem_cons_self _ _)
      obtain ⟨pre, hpre⟩ := streamLoop_err_tail frame rest (i + 1) msg
        (fun x hx => h x (List.mem_cons_of_mem _ hx))
      refine ⟨sseFrame (frame i c) :: pre, ?_⟩
      rw [streamLoop, if_neg (by simp [hfin]), hpre]
      rfl

/-- **C5** (confirmed).  Every streaming HTTP response (completion and
chat) is a finite nonempty sequence of `data: <JSON>` frames (each body a
JSON object) whose final frame is exactly one `data: [DONE]`, after which
nothing further is emitted; and when the generator raises mid-stream
(before any truthy finish reason), a final `data: {error}` frame is
emitted and then `[DONE]`. -/
theorem C5_streaming_framing (cid : String) (created : Int) (model : String)
    (g : GenStream) :
    (streaming_completion cid created model g ≠ [] ∧
      (streaming_completion cid created model g).getLast? = some doneFrame ∧
      (streaming_completion cid created model g).count doneFrame = 1 ∧
      (∀ f ∈ (streaming_completion cid created model g).dropLast,
        ∃ body, f = sseFrame body ∧ body.head? = some '{')) ∧
    (streaming_chat cid created model g ≠ [] ∧
      (streaming_chat cid created model g).getLast? = some doneFrame ∧
      (streaming_chat cid created model g).count doneFrame = 1 ∧
      (∀ f ∈ (streaming_chat cid created model g).dropLast,
        ∃ body, f = sseFrame body ∧ body.head? = some '{')) ∧
    (∀ msg, g.err = some msg →
      (∀ c ∈ g.chunks, truthy c.finish_reason = false) →
      (∃ pre, streaming_completion cid created model g =
        pre ++ [sseFrame (errorJson msg), doneFrame]) ∧
      (∃ pre, streaming_chat cid created model g =
        pre ++ [sseFrame (errorJson msg), doneFrame])) := by
  refine ⟨?_, ?_, ?_⟩
  · exact streamLoop_shape _ (fun i c => by simp [completionChunkJson])
      g.chunks g.err 0
  · exact streamLoop_shape _ (fun i c => by simp [chatChunkJson])
      g.chunks g.err 0
  · intro msg hmsg hall
    constructor
    · unfold streaming_completion
      rw [hmsg]
      exact streamLoop_err_tail _ g.chunks 0 msg hall
    · unfold streaming_chat
      rw [hmsg]
      exact streamLoop_err_tail _ g.chunks 0 msg hall

/-- Witness for C5 at the concrete stream that yields one unfinished
chunk and then raises `"boom"`. -/
theorem C5_witness :
    (∃ pre, streaming_completion "cmpl-1" 7 "m.gguf"
        ⟨[⟨"hi", none⟩], some "boom"⟩ =
      pre ++ [sseFrame (errorJson "boom"), doneFrame]) ∧
    (∃ pre, streaming_chat "cmpl-1" 7 "m.gguf"
        ⟨[⟨"hi", none⟩], some "boom"⟩ =
      pre ++ [sseFrame (errorJson "boom"), doneFrame]) :=
  (C5_streaming_framing "cmpl-1" 7 "m.gguf" ⟨[⟨"hi", none⟩], some "boom"⟩).2.2
    "boom" rfl (by simp [truthy])

/-! ## Claim C1: API-key authentication
(`LlamaServer.__init__` lines 142-174 and `create_completion` lines
294-364)

No route of the server declares or reads any authentication dependency:
the `Authorization` header is never inspected and no handler can produce
HTTP 401.  Moreover `__init__` merges `**(api_keys or {})` into
`self.config`; `api_keys` is a `list`, so a *non-empty* key list is spread
with `**` over a list, which raises `TypeError` — the server cannot even
be constructed with auth keys configured (the repo's own test
`tests/core/test_server_api.py` passes `api_keys=["test-key-123"]` and
asserts 401 for unauthenticated requests). -/

/-- The outcome of `__init__`'s config merge
`{..., **(cache_config or {}), **(api_keys or {})}`: an empty list is
falsy (`or {}` applies), a non-empty list is not a mapping. -/
def LlamaServer.init_config (api_keys : List String) : Except String Unit :=
  match api_keys with
  | [] => Except.ok ()
  | _ :: _ => Except.error "TypeError: 'list' object is not a mapping"

/-- The observable outcome of one `POST /v1/completions` request. -/
structure CompletionOutcome where
  status : Nat
  backendCalled : Bool
  body : Option String
deriving Repr, DecidableEq

/-- The keyword arguments `create_completion` passes to `get_key`
(server.py lines 302-310). -/
def paramsOfRequest (r : CompletionRequest) : GenParams :=
  ⟨r.max_tokens, r.temperature, r.top_p, r.top_k, r.repeat_penalty, r.stop⟩

/-- `create_completion` (server.py lines 294-364).  The `Authorization`
header value is passed in to show that the handler never depends on it.
`llmLoaded` models `self._llm_instance`, `genText` the text produced by a
backend `generate` call (the cached/stored response body is abstracted to
that text), `now` the `time.time()` reading.  The streaming branch
returns a `StreamingResponse` whose frames are produced lazily (claim
C5); its body is not cached. -/
def create_completion (authHeader : Option String) (r : CompletionRequest)
    (llmLoaded : Bool) (cache : ModelCache String) (genText : String)
    (now : ℚ) : CompletionOutcome × ModelCache String :=
  if llmLoaded = false then (⟨503, false, none⟩, cache)
  else if r.stream then (⟨200, true, none⟩, cache)
  else
    match ModelCache.get cache
        (String.mk (get_key r.prompt (paramsOfRequest r))) now with
    | (some v, c1) => (⟨200, false, some v⟩, c1)
    | (none, c1) =>
        (⟨200, true, some genText⟩,
          c1.set (String.mk (get_key r.prompt (paramsOfRequest r)))
            genText now)

/-- **C1** (code bug).  The claim — and the repository's own test suite —
require HTTP 401 for a missing or wrong Bearer key when the key list is
non-empty; the code enforces nothing: (1) constructing the server with a
non-empty key list raises `TypeError`; (2) the completion handler's
outcome is entirely independent of the `Authorization` header; (3) no
outcome ever has status 401; (4) at the spec's concrete failing input
(`Authorization: Bearer wrong`, body `{"prompt": "hi", "max_tokens": 1}`)
the request is served with 200 and the backend *is* invoked. -/
theorem C1_auth_never_enforced :
    (∀ (k : String) (ks : List String),
      LlamaServer.init_config (k :: ks) =
        Except.error "TypeError: 'list' object is not a mapping") ∧
    (∀ auth1 auth2 r loaded cache gen now,
      create_completion auth1 r loaded cache gen now =
        create_completion auth2 r loaded cache gen now) ∧
    (∀ auth r loaded cache gen now,
      (create_completion auth r loaded cache gen now).1.status ≠ 401) ∧
    (create_completion (some "Bearer wrong")
        { prompt := "hi", max_tokens := 1 } true ⟨[], 100, 3600, 0, 0⟩
        "ok" 0).1 = ⟨200, true, some "ok"⟩ := by
  refine ⟨fun k ks => rfl, fun auth1 auth2 r loaded cache gen now => rfl,
    ?_, rfl⟩
  intro auth r loaded cache gen now
  cases loaded with
  | false => simp [create_completion]
  | true =>
      by_cases hs : r.stream
      · simp [create_completion, hs]
      · cases hg : ModelCache.get cache
            (String.mk (get_key r.prompt (paramsOfRequest r))) now with
        | mk o c1 =>
            cases o with
            | none => simp [create_completion, hs, hg]
            | some v => simp [create_completion, hs, hg]

/-! ## Claim C2: single-flight coalescing

`ModelCache` (server.py lines 36-133) holds only the entry dict and the
hit/miss counters: there is no in-flight map, no waiter handle, no
`do_or_wait` — nothing in the class or in `create_completion` coalesces
concurrent identical requests.  We model two concurrent requests with the
same fingerprint as interleaved atomic steps of the handler path
(`get` under the cache lock; the backend call; `set` under the lock) and
exhibit the interleaving in which both requests miss and the backend runs
twice with different bodies. -/

/-- One request task on the non-streaming cache path: phase 0 = about to
call `cache.get`; 1 = missed, about to call the backend; 2 = holding a
fresh backend result, about to `cache.set` and respond; 3 = responded. -/
structure TaskState where
  phase : Nat
  result : Option String
  usedBackend : Bool
deriving Repr, DecidableEq

/-- Two concurrent request tasks sharing the cache, plus the count of
backend invocations.  `bt n` is the text produced by the `n`-th backend
call (generation is not deterministic across calls in general). -/
structure TwoTaskSystem where
  cache : ModelCache String
  t0 : TaskState
  t1 : TaskState
  backendCalls : Nat

/-- One atomic step of a task (the cache operations are atomic in the
source — they run under `self.lock`). -/
def stepTask (key : String) (bt : Nat → String) (now : ℚ)
    (cache : ModelCache String) (t : TaskState) (calls : Nat) :
    ModelCache String × TaskState × Nat :=
  match t.phase with
  | 0 =>
      match ModelCache.get cache key now with
      | (some v, c1) => (c1, ⟨3, some v, false⟩, calls)
      | (none, c1) => (c1, ⟨1, none, false⟩, calls)
  | 1 => (cache, ⟨2, some (bt calls), true⟩, calls + 1)
  | 2 =>
      match t.result with
      | some v => (ModelCache.set cache key v now, ⟨3, t.result, t.usedBackend⟩, calls)
      | none => (cache, ⟨3, none, t.usedBackend⟩, calls)
  | _ => (cache, t, calls)

/-- Run one scheduler step: `tid` selects which task advances. -/
def stepSystem (key : String) (bt : Nat → String) (now : ℚ)
    (sys : TwoTaskSystem) (tid : Bool) : TwoTaskSystem :=
  if tid then
    ⟨(stepTask key bt now sys.cache sys.t1 sys.backendCalls).1,
     sys.t0,
     (stepTask key bt now sys.cache sys.t1 sys.backendCalls).2.1,
     (stepTask key bt now sys.cache sys.t1 sys.backendCalls).2.2⟩
  else
    ⟨(stepTask key bt now sys.cache sys.t0 sys.backendCalls).1,
     (stepTask key bt now sys.cache sys.t0 sys.backendCalls).2.1,
     sys.t1,
     (stepTask key bt now sys.cache sys.t0 sys.backendCalls).2.2⟩

/-- Execute a schedule (a list of task choices). -/
def runSchedule (key : String) (bt : Nat → String) (now : ℚ)
    (sched : List Bool) (sys : TwoTaskSystem) : TwoTaskSystem :=
  sched.foldl (stepSystem key bt now) sys

/-- Two idle tasks over a given cache state. -/
def twoIdleTasks (c : ModelCache String) : TwoTaskSystem :=
  ⟨c, ⟨0, none, false⟩, ⟨0, none, false⟩, 0⟩

/-- **C2 counterexample**.  With an empty cache, the interleaving in
which both requests perform their `get` before either completes invokes
the backend twice, and the two requests observe different bodies
(`"r0"` vs `"r1"`) — refuting both the at-most-one-invocation and the
same-body guarantees. -/
theorem C2_counterexample :
    (runSchedule "k" (fun n => if n = 0 then "r0" else "r1") 0
        [false, true, false, true, false, true]
        (twoIdleTasks ⟨[], 100, 3600, 0, 0⟩)).backendCalls = 2 ∧
    (runSchedule "k" (fun n => if n = 0 then "r0" else "r1") 0
        [false, true, false, true, false, true]
        (twoIdleTasks ⟨[], 100, 3600, 0, 0⟩)).t0.result = some "r0" ∧
    (runSchedule "k" (fun n => if n = 0 then "r0" else "r1") 0
        [false, true, false, true, false, true]
        (twoIdleTasks ⟨[], 100, 3600, 0, 0⟩)).t1.result = some "r1" ∧
    some "r0" ≠ some "r1" := by
  refine ⟨rfl, rfl, rfl, by decide⟩

/-- Pending-backend potential of a task: a task can still trigger at most
one backend call iff it has not yet passed phase 1. -/
def pend (t : TaskState) : Nat :=
  if t.phase ≤ 1 then 1 else 0

theorem stepTask_calls_bound (key : String) (bt : Nat → String) (now : ℚ)
    (cache : ModelCache String) (t : TaskState) (calls : Nat) :
    (stepTask key bt now cache t calls).2.2 +
        pend (stepTask key bt now cache t calls).2.1 ≤ calls + pend t := by
  unfold stepTask
  rcases t with ⟨phase, result, used⟩
  match phase with
  | 0 =>
      cases hg : ModelCache.get cache key now with
      | mk o c1 =>
          cases o <;> simp [pend]
  | 1 => simp [pend]
  | 2 => cases result <;> simp [pend]
  | (n + 3) => simp [pend]

theorem stepSystem_calls_bound (key : String) (bt : Nat → String)
    (now : ℚ) (sys : TwoTaskSystem) (tid : Bool) :
    (stepSystem key bt now sys tid).backendCalls +
        pend (stepSystem key bt now sys tid).t0 +
        pend (stepSystem key bt now sys tid).t1 ≤
      sys.backendCalls + pend sys.t0 + pend sys.t1 := by
  cases tid with
  | false =>
      have h := stepTask_calls_bound key bt now sys.cache sys.t0
        sys.backendCalls
      simp only [stepSystem, Bool.false_eq_true, if_false]
      omega
  | true =>
      have h := stepTask_calls_bound key bt now sys.cache sys.t1
        sys.backendCalls
      simp only [stepSystem, if_true]
      omega

theorem runSchedule_calls_bound (key : String) (bt : Nat → String)
    (now : ℚ) :
    ∀ (sched : List Bool) (sys : TwoTaskSystem),
      (runSchedule key bt now sched sys).backendCalls +
          pend (runSchedule key bt now sched sys).t0 +
          pend (runSchedule key bt now sched sys).t1 ≤
        sys.backendCalls + pend sys.t0 + pend sys.t1
  | [], sys => le_refl _
  | tid :: sched, sys => by
      have heq : runSchedule key bt now (tid :: sched) sys =
          runSchedule key bt now sched (stepSystem key bt now sys tid) := rfl
      rw [heq]
      exact le_trans
        (runSchedule_calls_bound key bt now sched
          (stepSystem key bt now sys tid))
        (stepSystem_calls_bound key bt now sys tid)

/-- **C2 amended** (the original claim is refuted by
`C2_counterexample`).  The cache provides no single-flight coalescing:
each concurrent request that misses invokes the backend itself, so two
concurrent identical requests invoke it up to twice (never more than once
per request), and they may observe different bodies; only a request whose
`get` runs after another request's completed `set` (within TTL) is served
that cached body without a backend call. -/
theorem C2_no_single_flight (key : String) (bt : Nat → String) (now ttl : ℚ)
    (cap : Nat) (httl : 0 ≤ ttl) :
    (∀ sched : List Bool,
      (runSchedule key bt now sched
        (twoIdleTasks ⟨[], cap, ttl, 0, 0⟩)).backendCalls ≤ 2) ∧
    (runSchedule key bt now [false, false, false, true]
        (twoIdleTasks ⟨[], cap, ttl, 0, 0⟩)).backendCalls = 1 ∧
    (runSchedule key bt now [false, false, false, true]
        (twoIdleTasks ⟨[], cap, ttl, 0, 0⟩)).t0.result = some (bt 0) ∧
    (runSchedule key bt now [false, false, false, true]
        (twoIdleTasks ⟨[], cap, ttl, 0, 0⟩)).t1.result = some (bt 0) := by
  refine ⟨?_, ?_⟩
  · intro sched
    have hb := runSchedule_calls_bound key bt now sched
      (twoIdleTasks ⟨[], cap, ttl, 0, 0⟩)
    have h0 : (twoIdleTasks ⟨[], cap, ttl, 0, 0⟩).backendCalls = 0 := rfl
    have h1 : pend (twoIdleTasks ⟨[], cap, ttl, 0, 0⟩).t0 = 1 := rfl
    have h2 : pend (twoIdleTasks ⟨[], cap, ttl, 0, 0⟩).t1 = 1 := rfl
    omega
  · have h1 : stepSystem key bt now (twoIdleTasks ⟨[], cap, ttl, 0, 0⟩)
        false =
        ⟨⟨[], cap, ttl, 0, 1⟩, ⟨1, none, false⟩, ⟨0, none, false⟩, 0⟩ := by
      simp [stepSystem, twoIdleTasks, stepTask, ModelCache.get, lookupEntry]
    have h2 : stepSystem key bt now
        ⟨⟨[], cap, ttl, 0, 1⟩, ⟨1, none, false⟩, ⟨0, none, false⟩, 0⟩
        false =
        ⟨⟨[], cap, ttl, 0, 1⟩, ⟨2, some (bt 0), true⟩, ⟨0, none, false⟩,
          1⟩ := by
      simp [stepSystem, stepTask]
    have h3 : stepSystem key bt now
        ⟨⟨[], cap, ttl, 0, 1⟩, ⟨2, some (bt 0), true⟩, ⟨0, none, false⟩, 1⟩
        false =
        ⟨⟨[(key, bt 0, now)], cap, ttl, 0, 1⟩, ⟨3, some (bt 0), true⟩,
          ⟨0, none, false⟩, 1⟩ := by
      simp [stepSystem, stepTask, ModelCache.set, evictIfFull, upsert]
    have h4 : stepSystem key bt now
        ⟨⟨[(key, bt 0, now)], cap, ttl, 0, 1⟩, ⟨3, some (bt 0), true⟩,
          ⟨0, none, false⟩, 1⟩
        true =
        ⟨⟨[(key, bt 0, now)], cap, ttl, 1, 1⟩, ⟨3, some (bt 0), true⟩,
          ⟨3, some (bt 0), false⟩, 1⟩ := by
      simp [stepSystem, stepTask, ModelCache.get, lookupEntry, httl]
    have hrun : runSchedule key bt now [false, false, false, true]
        (twoIdleTasks ⟨[], cap, ttl, 0, 0⟩) =
        ⟨⟨[(key, bt 0, now)], cap, ttl, 1, 1⟩, ⟨3, some (bt 0), true⟩,
          ⟨3, some (bt 0), false⟩, 1⟩ := by
      have hexp : runSchedule key bt now [false, false, false, true]
          (twoIdleTasks ⟨[], cap, ttl, 0, 0⟩) =
          stepSystem key bt now
            (stepSystem key bt now
              (stepSystem key bt now
                (stepSystem key bt now (twoIdleTasks ⟨[], cap, ttl, 0, 0⟩)
                  false) false) false) true := rfl
      rw [hexp, h1, h2, h3, h4]
    rw [hrun]
    exact ⟨rfl, rfl, rfl⟩

/-- Witness for C2's amended theorem at concrete inputs. -/
theorem C2_amended_witness :
    (runSchedule "k" (fun _ => "r") 5 [false, false, false, true]
        (twoIdleTasks ⟨[], 100, 3600, 0, 0⟩)).backendCalls = 1 ∧
    (runSchedule "k" (fun _ => "r") 5 [false, false, false, true]
        (twoIdleTasks ⟨[], 100, 3600, 0, 0⟩)).t0.result = some "r" ∧
    (runSchedule "k" (fun _ => "r") 5 [false, false, false, true]
        (twoIdleTasks ⟨[], 100, 3600, 0, 0⟩)).t1.result = some "r" :=
  (C2_no_single_flight "k" (fun _ => "r") 5 3600 100 (by norm_num)).2

/-! ## Claims C7 and C10: structure of the cache key

The remaining two claims are about `get_key` as a function of
`(prompt, params)`.  C7 asserts that reordering the `stop` list leaves the
key unchanged; C10 asserts that the key function is not injective (so two
distinct requests could share a cached response).  Both are settled by a
structural analysis of `prompt ++ ":" ++ json.dumps(params)`:

* `json.dumps(..., sort_keys=True)` sorts *dictionary keys* only — the
  `stop` list keeps its order, so reordering `stop` changes the key
  (refuting C7);
* the parameter JSON is always appended after the separating `:` and its
  grammar (a fixed key skeleton, escaped string literals, `": "` with a
  space after every structural colon) admits no second reading, making
  `get_key` injective (refuting C10).

The injectivity proof has two parts: a *split-uniqueness* argument — no
`dumpsGenParams` output contains `":" ++ dumpsGenParams _` as a proper
suffix, shown with a four-state scanning automaton for the character
pattern `:{"m` — and injectivity of `dumpsGenParams` itself, shown by
deterministic left-to-right parsing of its segments. -/

/-- A character of the pattern `:{"m` (the separator colon followed by
the first three characters of every `dumpsGenParams` output). -/
def patChar (c : Char) : Bool :=
  c = ':' || c = '{' || c = '"' || c = 'm'

/-- Scanning automaton for the pattern `:{"m`: state `k < 4` means the
last characters read end with exactly the first `k` pattern characters
(for the purposes used here), and state 4 — the pattern occurred — is
absorbing. -/
def patStep (s : Nat) (c : Char) : Nat :=
  if s = 4 then 4
  else if c = ':' then 1
  else if c = '{' then (if s = 1 then 2 else 0)
  else if c = '"' then (if s = 2 then 3 else 0)
  else if c = 'm' then (if s = 3 then 4 else 0)
  else 0

/-- Run the automaton over a character list. -/
def patScan (s : Nat) (l : List Char) : Nat :=
  l.foldl patStep s

theorem patScan_nil (s : Nat) : patScan s [] = s := rfl

theorem patScan_cons (s : Nat) (c : Char) (l : List Char) :
    patScan s (c :: l) = patScan (patStep s c) l := rfl

theorem patScan_append (s : Nat) (a b : List Char) :
    patScan s (a ++ b) = patScan (patScan s a) b :=
  List.foldl_append _ _ _ _

theorem patScan_absorb : ∀ l : List Char, patScan 4 l = 4
  | [] => rfl
  | c :: l => by
      rw [patScan_cons]
      have : patStep 4 c = 4 := by unfold patStep; rw [if_pos rfl]
      rw [this]
      exact patScan_absorb l

/-- Soundness direction used below: scanning the pattern itself from any
state ends in the absorbing state. -/
theorem patScan_pattern (s : Nat) (b : List Char) :
    patScan s (':' :: '{' :: '"' :: 'm' :: b) = 4 := by
  by_cases hs : s = 4
  · subst hs
    exact patScan_absorb _
  · have h1 : patStep s ':' = 1 := by
      unfold patStep
      rw [if_neg hs, if_pos (rfl : (':' : Char) = ':')]
    rw [patScan_cons, h1, patScan_cons]
    have h2 : patStep 1 '{' = 2 := by decide
    rw [h2, patScan_cons]
    have h3 : patStep 2 '"' = 3 := by decide
    rw [h3, patScan_cons]
    have h4 : patStep 3 'm' = 4 := by decide
    rw [h4]
    exact patScan_absorb b

theorem patStep_notpat {s : Nat} {c : Char} (hs : s ≠ 4)
    (hc : patChar c = false) : patStep s c = 0 := by
  simp only [patChar, Bool.or_eq_false_iff, decide_eq_false_iff_not] at hc
  obtain ⟨⟨⟨h1, h2⟩, h3⟩, h4⟩ := hc
  unfold patStep
  rw [if_neg hs, if_neg h1, if_neg h2, if_neg h3, if_neg h4]

/-- A nonempty block of non-pattern characters resets the automaton to
state 0 (from any non-found state). -/
theorem patScan_notpat : ∀ (l : List Char), (∀ c ∈ l, patChar c = false) →
    ∀ s : Nat, s ≠ 4 → l ≠ [] → patScan s l = 0
  | [], _, _, _, hne => absurd rfl hne
  | c :: l, h, s, hs, _ => by
      rw [patScan_cons, patStep_notpat hs (h c (List.mem_cons_self _ _))]
      cases l with
      | nil => rfl
      | cons d t =>
          exact patScan_notpat (d :: t)
            (fun x hx => h x (List.mem_cons_of_mem _ hx)) 0 (by decide)
            (by simp)

/-! ### Character classes of the number renderings -/

/-- The characters that can occur in `intStr`/`ratStr` output (Python's
float `repr` likewise uses only digits, `-`, `.`, `e`, `+`, `inf`,
`nan` — none of which is a pattern character either). -/
def isNumChar (c : Char) : Bool :=
  c.isDigit || c = '-' || c = '/'

theorem hexDigit_lt10_isDigit : ∀ d : Nat, d < 10 →
    (hexDigit d).isDigit = true := by
  have h : ∀ d : Fin 10, (hexDigit d.1).isDigit = true := by decide
  intro d hd
  exact h ⟨d, hd⟩

theorem isNumChar_of_isDigit {c : Char} (h : c.isDigit = true) :
    isNumChar c = true := by
  simp [isNumChar, h]

theorem patChar_false_of_isNumChar {c : Char} (h : isNumChar c = true) :
    patChar c = false := by
  simp only [isNumChar, Bool.or_eq_true, decide_eq_true_eq] at h
  rcases h with (hd | rfl) | rfl
  · by_contra hne
    have hp : patChar c = true := by
      cases hpc : patChar c
      · exact absurd hpc hne
      · rfl
    simp only [patChar, Bool.or_eq_true, decide_eq_true_eq] at hp
    rcases hp with ((rfl | rfl) | rfl) | rfl <;> simp_all
  · decide
  · decide

theorem mem_natDigitsRev_isDigit :
    ∀ (n : Nat), ∀ c ∈ natDigitsRev n, c.isDigit = true := by
  intro n
  induction n using Nat.strong_induction_on with
  | _ n ih =>
      intro c hc
      rw [natDigitsRev] at hc
      by_cases h0 : n = 0
      · rw [dif_pos h0] at hc
        simp at hc
      · rw [dif_neg h0] at hc
        rcases List.mem_cons.mp hc with rfl | hc
        · exact hexDigit_lt10_isDigit _ (Nat.mod_lt _ (by norm_num))
        · exact ih (n / 10) (Nat.div_lt_self (Nat.pos_of_ne_zero h0)
            (by norm_num)) c hc

theorem mem_natStr_isDigit {n : Nat} : ∀ c ∈ natStr n, c.isDigit = true := by
  intro c hc
  unfold natStr at hc
  by_cases h0 : n = 0
  · rw [if_pos h0] at hc
    simp at hc
    rw [hc]
    decide
  · rw [if_neg h0] at hc
    exact mem_natDigitsRev_isDigit n c (List.mem_reverse.mp hc)

theorem mem_intStr_isNumChar {i : Int} : ∀ c ∈ intStr i, isNumChar c = true := by
  intro c hc
  unfold intStr at hc
  by_cases hneg : i < 0
  · rw [if_pos hneg] at hc
    rcases List.mem_cons.mp hc with rfl | hc
    · decide
    · exact isNumChar_of_isDigit (mem_natStr_isDigit c hc)
  · rw [if_neg hneg] at hc
    exact isNumChar_of_isDigit (mem_natStr_isDigit c hc)

theorem mem_ratStr_isNumChar {q : ℚ} : ∀ c ∈ ratStr q, isNumChar c = true := by
  intro c hc
  unfold ratStr at hc
  rcases List.mem_append.mp hc with hc | hc
  · exact mem_intStr_isNumChar c hc
  · rcases List.mem_cons.mp hc with rfl | hc
    · decide
    · exact isNumChar_of_isDigit (mem_natStr_isDigit c hc)

theorem natStr_ne_nil (n : Nat) : natStr n ≠ [] := by
  unfold natStr
  by_cases h0 : n = 0
  · rw [if_pos h0]
    simp
  · rw [if_neg h0]
    intro h
    have : natDigitsRev n = [] := by
      have := congrArg List.reverse h
      simpa using this
    rw [natDigitsRev, dif_neg h0] at this
    simp at this

theorem intStr_ne_nil (i : Int) : intStr i ≠ [] := by
  unfold intStr
  by_cases hneg : i < 0
  · rw [if_pos hneg]
    simp
  · rw [if_neg hneg]
    exact natStr_ne_nil _

theorem ratStr_ne_nil (q : ℚ) : ratStr q ≠ [] := by
  unfold ratStr
  intro h
  exact intStr_ne_nil q.num (List.append_eq_nil.mp h).1

/-! ### Scanning the pieces of `dumpsGenParams` -/

theorem patChar_hexDigit (n : Nat) (h : n < 16) : patChar (hexDigit n) = false := by
  have hall : ∀ d : Fin 16, patChar (hexDigit d.1) = false := by decide
  exact hall ⟨n, h⟩

theorem mem_hex4_patChar {n : Nat} : ∀ c ∈ hex4 n, patChar c = false := by
  intro c hc
  simp only [hex4, List.mem_cons, List.not_mem_nil, or_false] at hc
  rcases hc with rfl | rfl | rfl | rfl <;>
    exact patChar_hexDigit _ (Nat.mod_lt _ (by norm_num))

theorem patScan_hex4 (n : Nat) {s : Nat} (hs : s ≠ 4) :
    patScan s (hex4 n) = 0 :=
  patScan_notpat _ mem_hex4_patChar s hs (by simp [hex4])

theorem patStep_backslash {s : Nat} (hs : s = 0 ∨ s = 1 ∨ s = 2) :
    patStep s '\\' = 0 := by
  rcases hs with rfl | rfl | rfl <;> decide

theorem patStep_entry012 {s : Nat} (hs : s = 0 ∨ s = 1 ∨ s = 2) {c : Char}
    (hc : c ≠ '"') :
    patStep s c = 0 ∨ patStep s c = 1 ∨ patStep s c = 2 := by
  unfold patStep
  rcases hs with rfl | rfl | rfl <;> split_ifs <;> simp_all

/-- Decoding table of the two-character escapes: `shortDecode x = some c`
names the character `c` whose escape is `['\\', x]`. -/
def shortDecode (x : Char) : Option Char :=
  if x = '"' then some '"'
  else if x = '\\' then some '\\'
  else if x = 'n' then some '\n'
  else if x = 'r' then some '\r'
  else if x = 't' then some '\t'
  else if x = 'b' then some '\x08'
  else if x = 'f' then some '\x0c'
  else none

theorem shortDecode_mem {x c : Char} (h : shortDecode x = some c) :
    x = '"' ∨ x = '\\' ∨ x = 'n' ∨ x = 'r' ∨ x = 't' ∨ x = 'b' ∨ x = 'f' := by
  unfold shortDecode at h
  by_cases h1 : x = '"'
  · exact Or.inl h1
  rw [if_neg h1] at h
  by_cases h2 : x = '\\'
  · exact Or.inr (Or.inl h2)
  rw [if_neg h2] at h
  by_cases h3 : x = 'n'
  · exact Or.inr (Or.inr (Or.inl h3))
  rw [if_neg h3] at h
  by_cases h4 : x = 'r'
  · exact Or.inr (Or.inr (Or.inr (Or.inl h4)))
  rw [if_neg h4] at h
  by_cases h5 : x = 't'
  · exact Or.inr (Or.inr (Or.inr (Or.inr (Or.inl h5))))
  rw [if_neg h5] at h
  by_cases h6 : x = 'b'
  · exact Or.inr (Or.inr (Or.inr (Or.inr (Or.inr (Or.inl h6)))))
  rw [if_neg h6] at h
  by_cases h7 : x = 'f'
  · exact Or.inr (Or.inr (Or.inr (Or.inr (Or.inr (Or.inr h7)))))
  rw [if_neg h7] at h
  exact absurd h (by simp)

/-- Classification of `escChar`'s output into the four code shapes:
the character itself; a two-character escape; a `\uXXXX` unit; a
surrogate pair. -/
theorem escChar_cases (c : Char) :
    (escChar c = [c] ∧ c ≠ '"' ∧ c ≠ '\\') ∨
    (∃ x, escChar c = ['\\', x] ∧ x ≠ 'u' ∧ shortDecode x = some c) ∨
    (escChar c = '\\' :: 'u' :: hex4 c.toNat ∧ c.toNat < 0x10000) ∨
    (escChar c = '\\' :: 'u' :: hex4 (0xd800 + (c.toNat - 0x10000) / 0x400)
        ++ '\\' :: 'u' :: hex4 (0xdc00 + (c.toNat - 0x10000) % 0x400) ∧
      0x10000 ≤ c.toNat ∧ c.toNat < 0x110000) := by
  have hv : c.toNat < 0xd800 ∨ (0xdfff < c.toNat ∧ c.toNat < 0x110000) :=
    c.valid
  unfold escChar
  by_cases h1 : c = '"'
  · rw [if_pos h1]
    exact Or.inr (Or.inl ⟨'"', rfl, by decide, by rw [h1]; rfl⟩)
  rw [if_neg h1]
  by_cases h2 : c = '\\'
  · rw [if_pos h2]
    exact Or.inr (Or.inl ⟨'\\', rfl, by decide, by rw [h2]; rfl⟩)
  rw [if_neg h2]
  by_cases h3 : c = '\n'
  · rw [if_pos h3]
    exact Or.inr (Or.inl ⟨'n', rfl, by decide, by rw [h3]; rfl⟩)
  rw [if_neg h3]
  by_cases h4 : c = '\r'
  · rw [if_pos h4]
    exact Or.inr (Or.inl ⟨'r', rfl, by decide, by rw [h4]; rfl⟩)
  rw [if_neg h4]
  by_cases h5 : c = '\t'
  · rw [if_pos h5]
    exact Or.inr (Or.inl ⟨'t', rfl, by decide, by rw [h5]; rfl⟩)
  rw [if_neg h5]
  by_cases h6 : c = '\x08'
  · rw [if_pos h6]
    exact Or.inr (Or.inl ⟨'b', rfl, by decide, by rw [h6]; rfl⟩)
  rw [if_neg h6]
  by_cases h7 : c = '\x0c'
  · rw [if_pos h7]
    exact Or.inr (Or.inl ⟨'f', rfl, by decide, by rw [h7]; rfl⟩)
  rw [if_neg h7]
  by_cases h8 : c.toNat < 0x20
  · rw [if_pos h8]
    exact Or.inr (Or.inr (Or.inl ⟨rfl, by omega⟩))
  rw [if_neg h8]
  by_cases h9 : c.toNat ≤ 0x7e
  · rw [if_pos h9]
    exact Or.inl ⟨rfl, h1, h2⟩
  rw [if_neg h9]
  by_cases h10 : c.toNat < 0x10000
  · rw [if_pos h10]
    exact Or.inr (Or.inr (Or.inl ⟨rfl, h10⟩))
  · rw [if_neg h10]
    exact Or.inr (Or.inr (Or.inr ⟨rfl, by omega, by omega⟩))

theorem patScan_escChar {s : Nat} (hs : s = 0 ∨ s = 1 ∨ s = 2) (c : Char) :
    patScan s (escChar c) = 0 ∨ patScan s (escChar c) = 1 ∨
      patScan s (escChar c) = 2 := by
  have hbs := patStep_backslash hs
  rcases escChar_cases c with ⟨he, hq, _⟩ | ⟨x, he, _, hx⟩ | ⟨he, _⟩ |
    ⟨he, _, _⟩
  · rw [he]
    exact patStep_entry012 hs hq
  · rw [he, patScan_cons, hbs, patScan_cons]
    left
    rcases shortDecode_mem hx with rfl | rfl | rfl | rfl | rfl | rfl | rfl <;>
      decide
  · rw [he, patScan_cons, hbs, patScan_cons,
      show patStep 0 'u' = 0 from by decide]
    left
    exact patScan_hex4 _ (by decide)
  · have hfirst : patScan s
        ('\\' :: 'u' :: hex4 (0xd800 + (c.toNat - 0x10000) / 0x400)) = 0 := by
      rw [patScan_cons, hbs, patScan_cons,
        show patStep 0 'u' = 0 from by decide]
      exact patScan_hex4 _ (by decide)
    rw [he,
      show ('\\' :: 'u' :: hex4 (0xd800 + (c.toNat - 0x10000) / 0x400)
          ++ '\\' :: 'u' :: hex4 (0xdc00 + (c.toNat - 0x10000) % 0x400)) =
        ('\\' :: 'u' :: hex4 (0xd800 + (c.toNat - 0x10000) / 0x400))
          ++ ('\\' :: 'u' :: hex4 (0xdc00 + (c.toNat - 0x10000) % 0x400))
        from by simp,
      patScan_append, hfirst, patScan_cons,
      show patStep 0 '\\' = 0 from by decide,
      patScan_cons, show patStep 0 'u' = 0 from by decide]
    left
    exact patScan_hex4 _ (by decide)

theorem patScan_escape : ∀ (l : List Char) {s : Nat},
    (s = 0 ∨ s = 1 ∨ s = 2) →
    (patScan s (escape l) = 0 ∨ patScan s (escape l) = 1 ∨
      patScan s (escape l) = 2)
  | [], s, hs => by
      rw [show escape [] = [] from rfl, patScan_nil]
      exact hs
  | c :: l, s, hs => by
      rw [show escape (c :: l) = escChar c ++ escape l from rfl,
        patScan_append]
      exact patScan_escape l (patScan_escChar hs c)

theorem patScan_jsonString (x : String) :
    patScan 0 (jsonString x) = 0 ∨ patScan 0 (jsonString x) = 3 := by
  rw [show jsonString x = '"' :: (escape x.data ++ ['"']) from by
    simp [jsonString]]
  rw [patScan_cons, show patStep 0 '"' = 0 from by decide, patScan_append]
  rcases patScan_escape x.data (Or.inl rfl) with h | h | h <;> rw [h]
  · left
    decide
  · left
    decide
  · right
    decide

theorem patScan_jsonItems : ∀ xs : List String,
    patScan 0 (jsonItems xs) = 0 ∨ patScan 0 (jsonItems xs) = 3
  | [] => Or.inl rfl
  | [x] => patScan_jsonString x
  | x :: y :: t => by
      rw [show jsonItems (x :: y :: t) =
        jsonString x ++ ',' :: ' ' :: jsonItems (y :: t) from rfl,
        patScan_append]
      rcases patScan_jsonString x with h | h <;> rw [h] <;>
        rw [patScan_cons] <;>
        [rw [show patStep 0 ',' = 0 from by decide];
         rw [show patStep 3 ',' = 0 from by decide]] <;>
        rw [patScan_cons, show patStep 0 ' ' = 0 from by decide] <;>
        exact patScan_jsonItems (y :: t)

theorem patScan_jsonList (xs : List String) :
    patScan 0 (jsonList xs) = 0 := by
  rw [show jsonList xs = '[' :: (jsonItems xs ++ [']']) from by
    simp [jsonList]]
  rw [patScan_cons, show patStep 0 '[' = 0 from by decide, patScan_append]
  rcases patScan_jsonItems xs with h | h <;> rw [h] <;> decide

theorem patScan_intStr (i : Int) {s : Nat} (hs : s ≠ 4) :
    patScan s (intStr i) = 0 :=
  patScan_notpat _
    (fun c hc => patChar_false_of_isNumChar (mem_intStr_isNumChar c hc))
    s hs (intStr_ne_nil i)

theorem patScan_ratStr (q : ℚ) {s : Nat} (hs : s ≠ 4) :
    patScan s (ratStr q) = 0 :=
  patScan_notpat _
    (fun c hc => patChar_false_of_isNumChar (mem_ratStr_isNumChar c hc))
    s hs (ratStr_ne_nil q)

/-- Scanning for `:{"m` over any `dumpsGenParams` output never finds it:
a structural colon is always followed by a space, an opening brace occurs
only at position zero or inside an escaped string (where a following
quote must itself be escaped), so no proper suffix of the output starts
with `{"m`. -/
theorem patScan_dumps (p : GenParams) :
    patScan 0 (dumpsGenParams p) = 0 := by
  unfold dumpsGenParams
  simp only [patScan_append]
  rw [show patScan 0 ('{' :: ("\"max_tokens\": ").toList) = 0 from by decide]
  rw [patScan_intStr p.max_tokens (by decide)]
  rw [show patScan 0 ((", \"repeat_penalty\": ").toList) = 0 from by decide]
  rw [patScan_ratStr p.repeat_penalty (by decide)]
  rw [show patScan 0 ((", \"stop\": ").toList) = 0 from by decide]
  rw [patScan_jsonList p.stop]
  rw [show patScan 0 ((", \"temperature\": ").toList) = 0 from by decide]
  rw [patScan_ratStr p.temperature (by decide)]
  rw [show patScan 0 ((", \"top_k\": ").toList) = 0 from by decide]
  rw [patScan_intStr p.top_k (by decide)]
  rw [show patScan 0 ((", \"top_p\": ").toList) = 0 from by decide]
  rw [patScan_ratStr p.top_p (by decide)]
  decide

/-- No `dumpsGenParams` output reads as `m ++ ":" ++ dumpsGenParams _`:
the split of a cache key into prompt and parameter JSON is unambiguous. -/
theorem dumps_no_fake_split (p1 p2 : GenParams) (m : List Char) :
    dumpsGenParams p1 ≠ m ++ ':' :: dumpsGenParams p2 := by
  intro h
  have hpat : patScan 0 (m ++ ':' :: dumpsGenParams p2) = 4 := by
    rw [patScan_append]
    have hd : dumpsGenParams p2 = '{' :: '"' :: 'm' ::
        (("ax_tokens\": ").toList ++ intStr p2.max_tokens ++
         (", \"repeat_penalty\": ").toList ++ ratStr p2.repeat_penalty ++
         (", \"stop\": ").toList ++ jsonList p2.stop ++
         (", \"temperature\": ").toList ++ ratStr p2.temperature ++
         (", \"top_k\": ").toList ++ intStr p2.top_k ++
         (", \"top_p\": ").toList ++ ratStr p2.top_p ++ ['}']) := by
      unfold dumpsGenParams
      simp
    rw [hd]
    exact patScan_pattern _ _
  rw [← h, patScan_dumps p1] at hpat
  exact absurd hpat (by decide)

/-! ### Injectivity of the escape rendering -/

theorem hexDigit_inj {a b : Nat} (ha : a < 16) (hb : b < 16)
    (h : hexDigit a = hexDigit b) : a = b := by
  have hall : ∀ x : Fin 16, ∀ y : Fin 16,
      hexDigit x.1 = hexDigit y.1 → x = y := by decide
  exact congrArg Fin.val (hall ⟨a, ha⟩ ⟨b, hb⟩ h)

theorem char_toNat_inj {c1 c2 : Char} (h : c1.toNat = c2.toNat) :
    c1 = c2 := by
  rw [← Char.ofNat_toNat c1, h, Char.ofNat_toNat]

theorem hex4_prefix_inj {a b : Nat} (ha : a < 0x10000) (hb : b < 0x10000)
    {x y : List Char} (h : hex4 a ++ x = hex4 b ++ y) : a = b ∧ x = y := by
  simp only [hex4, List.cons_append, List.nil_append, List.cons.injEq] at h
  obtain ⟨h1, h2, h3, h4, h5⟩ := h
  have e1 := hexDigit_inj (Nat.mod_lt _ (by norm_num))
    (Nat.mod_lt _ (by norm_num)) h1
  have e2 := hexDigit_inj (Nat.mod_lt _ (by norm_num))
    (Nat.mod_lt _ (by norm_num)) h2
  have e3 := hexDigit_inj (Nat.mod_lt _ (by norm_num))
    (Nat.mod_lt _ (by norm_num)) h3
  have e4 := hexDigit_inj (Nat.mod_lt _ (by norm_num))
    (Nat.mod_lt _ (by norm_num)) h4
  exact ⟨by omega, h5⟩

/-- The first character of any escape code is not a quote. -/
theorem escChar_head (c : Char) :
    ∃ d tl, escChar c = d :: tl ∧ d ≠ '"' := by
  rcases escChar_cases c with ⟨he, hq, _⟩ | ⟨x, he, _, _⟩ | ⟨he, _⟩ |
    ⟨he, _, _⟩
  · exact ⟨c, [], he, hq⟩
  · exact ⟨'\\', [x], he, by decide⟩
  · exact ⟨'\\', 'u' :: hex4 c.toNat, he, by decide⟩
  · exact ⟨'\\', 'u' :: hex4 (0xd800 + (c.toNat - 0x10000) / 0x400)
        ++ '\\' :: 'u' :: hex4 (0xdc00 + (c.toNat - 0x10000) % 0x400),
      by rw [he]; simp, by decide⟩

/-- Two escape codes at the head of equal streams are the same code for
the same character. -/
theorem escChar_prefix_eq {c1 c2 : Char} {a1 a2 : List Char}
    (h : escChar c1 ++ a1 = escChar c2 ++ a2) : c1 = c2 ∧ a1 = a2 := by
  have hv1 : c1.toNat < 0xd800 ∨ (0xdfff < c1.toNat ∧ c1.toNat < 0x110000) :=
    c1.valid
  have hv2 : c2.toNat < 0xd800 ∨ (0xdfff < c2.toNat ∧ c2.toNat < 0x110000) :=
    c2.valid
  rcases escChar_cases c1 with ⟨he1, hq1, hb1⟩ | ⟨x1, he1, hu1, hd1⟩ |
    ⟨he1, hlt1⟩ | ⟨he1, hge1, hlt1⟩ <;>
    rcases escChar_cases c2 with ⟨he2, hq2, hb2⟩ | ⟨x2, he2, hu2, hd2⟩ |
      ⟨he2, hlt2⟩ | ⟨he2, hge2, hlt2⟩ <;>
    rw [he1, he2] at h
  · -- ord / ord
    simp only [List.cons_append, List.nil_append, List.cons.injEq] at h
    exact ⟨h.1, h.2⟩
  · -- ord / short
    simp only [List.cons_append, List.nil_append, List.cons.injEq] at h
    exact absurd h.1 hb1
  · -- ord / uBMP
    simp only [List.cons_append, List.nil_append, List.cons.injEq] at h
    exact absurd h.1 hb1
  · -- ord / astral
    rw [show ('\\' :: 'u' :: hex4 (0xd800 + (c2.toNat - 0x10000) / 0x400)
        ++ '\\' :: 'u' :: hex4 (0xdc00 + (c2.toNat - 0x10000) % 0x400)) ++ a2
        = '\\' :: ('u' :: hex4 (0xd800 + (c2.toNat - 0x10000) / 0x400)
        ++ '\\' :: 'u' :: hex4 (0xdc00 + (c2.toNat - 0x10000) % 0x400) ++ a2)
      from by simp] at h
    simp only [List.cons_append, List.nil_append, List.cons.injEq] at h
    exact absurd h.1 hb1
  · -- short / ord
    simp only [List.cons_append, List.nil_append, List.cons.injEq] at h
    exact absurd h.1.symm hb2
  · -- short / short
    simp only [List.cons_append, List.nil_append, List.cons.injEq] at h
    obtain ⟨-, hx, ha⟩ := h
    subst hx
    rw [hd1] at hd2
    exact ⟨Option.some.inj hd2, ha⟩
  · -- short / uBMP
    simp only [List.cons_append, List.nil_append, List.cons.injEq] at h
    exact absurd h.2.1 hu1
  · -- short / astral
    rw [show ('\\' :: 'u' :: hex4 (0xd800 + (c2.toNat - 0x10000) / 0x400)
        ++ '\\' :: 'u' :: hex4 (0xdc00 + (c2.toNat - 0x10000) % 0x400)) ++ a2
        = '\\' :: 'u' :: (hex4 (0xd800 + (c2.toNat - 0x10000) / 0x400)
        ++ '\\' :: 'u' :: hex4 (0xdc00 + (c2.toNat - 0x10000) % 0x400) ++ a2)
      from by simp] at h
    simp only [List.cons_append, List.nil_append, List.cons.injEq] at h
    exact absurd h.2.1 hu1
  · -- uBMP / ord
    simp only [List.cons_append, List.nil_append, List.cons.injEq] at h
    exact absurd h.1.symm hb2
  · -- uBMP / short
    simp only [List.cons_append, List.nil_append, List.cons.injEq] at h
    exact absurd h.2.1.symm hu2
  · -- uBMP / uBMP
    simp only [List.cons_append, List.cons.injEq] at h
    obtain ⟨-, -, hh⟩ := h
    obtain ⟨hn, ha⟩ := hex4_prefix_inj hlt1 hlt2 hh
    exact ⟨char_toNat_inj hn, ha⟩
  · -- uBMP / astral
    rw [show ('\\' :: 'u' :: hex4 (0xd800 + (c2.toNat - 0x10000) / 0x400)
        ++ '\\' :: 'u' :: hex4 (0xdc00 + (c2.toNat - 0x10000) % 0x400)) ++ a2
        = '\\' :: 'u' :: (hex4 (0xd800 + (c2.toNat - 0x10000) / 0x400)
        ++ ('\\' :: 'u' :: hex4 (0xdc00 + (c2.toNat - 0x10000) % 0x400) ++ a2))
      from by simp] at h
    simp only [List.cons_append, List.cons.injEq] at h
    obtain ⟨-, -, hh⟩ := h
    obtain ⟨hn, -⟩ := hex4_prefix_inj hlt1 (by omega) hh
    omega
  · -- astral / ord
    rw [show ('\\' :: 'u' :: hex4 (0xd800 + (c1.toNat - 0x10000) / 0x400)
        ++ '\\' :: 'u' :: hex4 (0xdc00 + (c1.toNat - 0x10000) % 0x400)) ++ a1
        = '\\' :: ('u' :: hex4 (0xd800 + (c1.toNat - 0x10000) / 0x400)
        ++ '\\' :: 'u' :: hex4 (0xdc00 + (c1.toNat - 0x10000) % 0x400) ++ a1)
      from by simp] at h
    simp only [List.cons_append, List.nil_append, List.cons.injEq] at h
    exact absurd h.1.symm hb2
  · -- astral / short
    rw [show ('\\' :: 'u' :: hex4 (0xd800 + (c1.toNat - 0x10000) / 0x400)
        ++ '\\' :: 'u' :: hex4 (0xdc00 + (c1.toNat - 0x10000) % 0x400)) ++ a1
        = '\\' :: 'u' :: (hex4 (0xd800 + (c1.toNat - 0x10000) / 0x400)
        ++ '\\' :: 'u' :: hex4 (0xdc00 + (c1.toNat - 0x10000) % 0x400) ++ a1)
      from by simp] at h
    simp only [List.cons_append, List.nil_append, List.cons.injEq] at h
    exact absurd h.2.1.symm hu2
  · -- astral / uBMP
    rw [show ('\\' :: 'u' :: hex4 (0xd800 + (c1.toNat - 0x10000) / 0x400)
        ++ '\\' :: 'u' :: hex4 (0xdc00 + (c1.toNat - 0x10000) % 0x400)) ++ a1
        = '\\' :: 'u' :: (hex4 (0xd800 + (c1.toNat - 0x10000) / 0x400)
        ++ ('\\' :: 'u' :: hex4 (0xdc00 + (c1.toNat - 0x10000) % 0x400) ++ a1))
      from by simp] at h
    simp only [List.cons_append, List.cons.injEq] at h
    obtain ⟨-, -, hh⟩ := h
    obtain ⟨hn, -⟩ := hex4_prefix_inj (by omega) hlt2 hh
    omega
  · -- astral / astral
    rw [show ('\\' :: 'u' :: hex4 (0xd800 + (c1.toNat - 0x10000) / 0x400)
        ++ '\\' :: 'u' :: hex4 (0xdc00 + (c1.toNat - 0x10000) % 0x400)) ++ a1
        = '\\' :: 'u' :: (hex4 (0xd800 + (c1.toNat - 0x10000) / 0x400)
        ++ ('\\' :: 'u' :: hex4 (0xdc00 + (c1.toNat - 0x10000) % 0x400) ++ a1))
      from by simp,
      show ('\\' :: 'u' :: hex4 (0xd800 + (c2.toNat - 0x10000) / 0x400)
        ++ '\\' :: 'u' :: hex4 (0xdc00 + (c2.toNat - 0x10000) % 0x400)) ++ a2
        = '\\' :: 'u' :: (hex4 (0xd800 + (c2.toNat - 0x10000) / 0x400)
        ++ ('\\' :: 'u' :: hex4 (0xdc00 + (c2.toNat - 0x10000) % 0x400) ++ a2))
      from by simp] at h
    simp only [List.cons_append, List.cons.injEq] at h
    obtain ⟨-, -, hh⟩ := h
    obtain ⟨hhi, hrest⟩ := hex4_prefix_inj (by omega) (by omega) hh
    simp only [List.cons_append, List.cons.injEq] at hrest
    obtain ⟨-, -, hlo⟩ := hrest
    obtain ⟨hlo2, ha⟩ := hex4_prefix_inj (by omega) (by omega) hlo
    exact ⟨char_toNat_inj (by omega), ha⟩

/-- Injectivity of the escaped string rendering, with the closing quote
and an arbitrary remainder. -/
theorem escape_append_inj : ∀ (s1 : List Char) {s2 r1 r2 : List Char},
    escape s1 ++ '"' :: r1 = escape s2 ++ '"' :: r2 → s1 = s2 ∧ r1 = r2
  | [], s2, r1, r2 => by
      intro h
      cases s2 with
      | nil =>
          simp only [escape, List.nil_append, List.cons.injEq] at h
          exact ⟨rfl, h.2⟩
      | cons c2 t2 =>
          obtain ⟨d, tl, he, hd⟩ := escChar_head c2
          rw [show escape (c2 :: t2) = escChar c2 ++ escape t2 from rfl,
            he] at h
          simp only [escape, List.nil_append, List.cons_append,
            List.cons.injEq] at h
          exact absurd h.1.symm hd
  | c1 :: t1, s2, r1, r2 => by
      intro h
      cases s2 with
      | nil =>
          obtain ⟨d, tl, he, hd⟩ := escChar_head c1
          rw [show escape (c1 :: t1) = escChar c1 ++ escape t1 from rfl,
            he] at h
          simp only [escape, List.nil_append, List.cons_append,
            List.cons.injEq] at h
          exact absurd h.1 hd
      | cons c2 t2 =>
          rw [show escape (c1 :: t1) = escChar c1 ++ escape t1 from rfl,
            show escape (c2 :: t2) = escChar c2 ++ escape t2 from rfl,
            List.append_assoc, List.append_assoc] at h
          obtain ⟨hc, hrest⟩ := escChar_prefix_eq h
          obtain ⟨ht, hr⟩ := escape_append_inj t1 hrest
          exact ⟨by rw [hc, ht], hr⟩

/-! ### Deterministic splitting at character-class boundaries -/

/-- If two blocks drawn from a character class `P` are each followed by a
remainder starting outside `P`, equal concatenations split equally. -/
theorem charset_append_inj {P : Char → Bool} :
    ∀ {a1 : List Char} {a2 r1 r2 : List Char},
      (∀ c ∈ a1, P c = true) → (∀ c ∈ a2, P c = true) →
      (∀ c, r1.head? = some c → P c = false) →
      (∀ c, r2.head? = some c → P c = false) →
      a1 ++ r1 = a2 ++ r2 → a1 = a2 ∧ r1 = r2
  | [], a2, r1, r2, _, ha2, hr1, _, h => by
      cases a2 with
      | nil => exact ⟨rfl, h⟩
      | cons c t =>
          rw [List.nil_append] at h
          have hc : P c = true := ha2 c (List.mem_cons_self _ _)
          have : P c = false := hr1 c (by rw [h]; rfl)
          rw [hc] at this
          exact absurd this (by decide)
  | c1 :: t1, a2, r1, r2, ha1, ha2, hr1, hr2, h => by
      cases a2 with
      | nil =>
          rw [List.nil_append] at h
          have hc : P c1 = true := ha1 c1 (List.mem_cons_self _ _)
          have : P c1 = false := hr2 c1 (by rw [← h]; rfl)
          rw [hc] at this
          exact absurd this (by decide)
      | cons c2 t2 =>
          simp only [List.cons_append, List.cons.injEq] at h
          obtain ⟨rfl, h2⟩ := h
          obtain ⟨ht, hr⟩ := charset_append_inj
            (fun c hc => ha1 c (List.mem_cons_of_mem _ hc))
            (fun c hc => ha2 c (List.mem_cons_of_mem _ hc)) hr1 hr2 h2
          exact ⟨by rw [ht], hr⟩

/-! ### Injectivity of the number renderings -/

/-- Value of a digit string given least-significant first. -/
def valRev : List Char → Nat
  | [] => 0
  | c :: t => (c.toNat - 48) + 10 * valRev t

theorem charVal_hexDigit {d : Nat} (hd : d < 10) :
    (hexDigit d).toNat - 48 = d := by
  have hall : ∀ x : Fin 10, (hexDigit x.1).toNat - 48 = x.1 := by decide
  exact hall ⟨d, hd⟩

theorem valRev_natDigitsRev (n : Nat) : valRev (natDigitsRev n) = n := by
  induction n using Nat.strong_induction_on with
  | _ n ih =>
      rw [natDigitsRev]
      by_cases h0 : n = 0
      · rw [dif_pos h0, h0]
        rfl
      · rw [dif_neg h0]
        rw [valRev, charVal_hexDigit (Nat.mod_lt _ (by norm_num)),
          ih (n / 10) (Nat.div_lt_self (Nat.pos_of_ne_zero h0) (by norm_num))]
        omega

theorem natStr_inj {n1 n2 : Nat} (h : natStr n1 = natStr n2) : n1 = n2 := by
  unfold natStr at h
  by_cases h1 : n1 = 0 <;> by_cases h2 : n2 = 0
  · rw [h1, h2]
  · rw [if_pos h1, if_neg h2] at h
    have hrev : natDigitsRev n2 = ['0'] := by
      have := congrArg List.reverse h
      simpa using this.symm
    have := valRev_natDigitsRev n2
    rw [hrev] at this
    simp [valRev] at this
    exact absurd this.symm h2
  · rw [if_neg h1, if_pos h2] at h
    have hrev : natDigitsRev n1 = ['0'] := by
      have := congrArg List.reverse h
      simpa using this
    have := valRev_natDigitsRev n1
    rw [hrev] at this
    simp [valRev] at this
    exact absurd this.symm h1
  · rw [if_neg h1, if_neg h2] at h
    have hrev : natDigitsRev n1 = natDigitsRev n2 :=
      List.reverse_injective h
    rw [← valRev_natDigitsRev n1, ← valRev_natDigitsRev n2, hrev]

theorem not_dash_mem_natStr {n : Nat} (h : ('-' : Char) ∈ natStr n) :
    False := by
  have := mem_natStr_isDigit '-' h
  exact absurd this (by decide)

theorem intStr_inj {i1 i2 : Int} (h : intStr i1 = intStr i2) : i1 = i2 := by
  unfold intStr at h
  by_cases h1 : i1 < 0 <;> by_cases h2 : i2 < 0
  · rw [if_pos h1, if_pos h2] at h
    simp only [List.cons.injEq] at h
    have := natStr_inj h.2
    omega
  · rw [if_pos h1, if_neg h2] at h
    exact absurd (h ▸ List.mem_cons_self '-' _) not_dash_mem_natStr
  · rw [if_neg h1, if_pos h2] at h
    exact absurd (h.symm ▸ List.mem_cons_self '-' _) not_dash_mem_natStr
  · rw [if_neg h1, if_neg h2] at h
    have := natStr_inj h
    omega

/-- The characters of `intStr` are digits or `-`; in particular never the
separating slash. -/
def isIntChar (c : Char) : Bool :=
  c.isDigit || c = '-'

theorem mem_intStr_isIntChar {i : Int} : ∀ c ∈ intStr i, isIntChar c = true := by
  intro c hc
  unfold intStr at hc
  by_cases hneg : i < 0
  · rw [if_pos hneg] at hc
    rcases List.mem_cons.mp hc with rfl | hc
    · decide
    · simp [isIntChar, mem_natStr_isDigit c hc]
  · rw [if_neg hneg] at hc
    simp [isIntChar, mem_natStr_isDigit c hc]

theorem ratStr_append_inj {q1 q2 : ℚ} {r1 r2 : List Char}
    (hr1 : ∀ c, r1.head? = some c → isNumChar c = false)
    (hr2 : ∀ c, r2.head? = some c → isNumChar c = false)
    (h : ratStr q1 ++ r1 = ratStr q2 ++ r2) : q1 = q2 ∧ r1 = r2 := by
  unfold ratStr at h
  rw [List.append_assoc, List.append_assoc] at h
  have hsplit := charset_append_inj (P := isIntChar)
    mem_intStr_isIntChar mem_intStr_isIntChar
    (fun c hc => by
      simp only [List.cons_append, List.head?_cons, Option.some.injEq] at hc
      rw [← hc]
      decide)
    (fun c hc => by
      simp only [List.cons_append, List.head?_cons, Option.some.injEq] at hc
      rw [← hc]
      decide) h
  obtain ⟨hnum, htail⟩ := hsplit
  simp only [List.cons_append, List.cons.injEq] at htail
  obtain ⟨-, htail⟩ := htail
  have hden := charset_append_inj (P := fun c => c.isDigit)
    (fun c hc => mem_natStr_isDigit c hc)
    (fun c hc => mem_natStr_isDigit c hc)
    (fun c hc => by
      have := hr1 c hc
      simp only [isNumChar, Bool.or_eq_false_iff] at this
      exact this.1.1)
    (fun c hc => by
      have := hr2 c hc
      simp only [isNumChar, Bool.or_eq_false_iff] at this
      exact this.1.1) htail
  obtain ⟨hd, hr⟩ := hden
  refine ⟨?_, hr⟩
  have hn := intStr_inj hnum
  have hdd := natStr_inj hd
  exact Rat.ext hn hdd

theorem intStr_append_inj {i1 i2 : Int} {r1 r2 : List Char}
    (hr1 : ∀ c, r1.head? = some c → isNumChar c = false)
    (hr2 : ∀ c, r2.head? = some c → isNumChar c = false)
    (h : intStr i1 ++ r1 = intStr i2 ++ r2) : i1 = i2 ∧ r1 = r2 := by
  have hsplit := charset_append_inj (P := isNumChar)
    mem_intStr_isNumChar mem_intStr_isNumChar hr1 hr2 h
  exact ⟨intStr_inj hsplit.1, hsplit.2⟩

/-! ### Injectivity of the JSON renderings and of the cache key -/

theorem jsonString_append_inj {x1 x2 : String} {a1 a2 : List Char}
    (h : jsonString x1 ++ a1 = jsonString x2 ++ a2) : x1 = x2 ∧ a1 = a2 := by
  simp only [jsonString, List.cons_append, List.append_assoc,
    List.singleton_append, List.cons.injEq, true_and] at h
  obtain ⟨hd, hr⟩ := escape_append_inj x1.data h
  exact ⟨String.ext hd, hr⟩

theorem jsonItems_cons_head (x : String) (t : List String) (w : List Char) :
    ∃ z, jsonItems (x :: t) ++ w = '"' :: z := by
  cases t with
  | nil =>
      exact ⟨escape x.data ++ '"' :: w, by simp [jsonItems, jsonString]⟩
  | cons y ys =>
      exact ⟨escape x.data ++ '"' :: ',' :: ' ' :: (jsonItems (y :: ys) ++ w),
        by simp [jsonItems, jsonString]⟩

theorem jsonItems_append_inj : ∀ (xs1 : List String) {xs2 : List String}
    {r1 r2 : List Char},
    jsonItems xs1 ++ ']' :: r1 = jsonItems xs2 ++ ']' :: r2 →
      xs1 = xs2 ∧ r1 = r2
  | [], xs2, r1, r2 => by
      intro h
      cases xs2 with
      | nil =>
          simp only [jsonItems, List.nil_append, List.cons.injEq,
            true_and] at h
          exact ⟨rfl, h⟩
      | cons x2 t2 =>
          obtain ⟨z, hz⟩ := jsonItems_cons_head x2 t2 (']' :: r2)
          rw [hz] at h
          simp only [jsonItems, List.nil_append, List.cons.injEq] at h
          exact absurd h.1 (by decide)
  | x1 :: t1, xs2, r1, r2 => by
      intro h
      cases xs2 with
      | nil =>
          obtain ⟨z, hz⟩ := jsonItems_cons_head x1 t1 (']' :: r1)
          rw [hz] at h
          simp only [jsonItems, List.nil_append, List.cons.injEq] at h
          exact absurd h.1.symm (by decide)
      | cons x2 t2 =>
          cases t1 with
          | nil =>
              cases t2 with
              | nil =>
                  rw [show jsonItems [x1] = jsonString x1 from rfl,
                    show jsonItems [x2] = jsonString x2 from rfl] at h
                  obtain ⟨hx, hr⟩ := jsonString_append_inj h
                  simp only [List.cons.injEq, true_and] at hr
                  exact ⟨by rw [hx], hr⟩
              | cons y2 ys2 =>
                  rw [show jsonItems [x1] = jsonString x1 from rfl,
                    show jsonItems (x2 :: y2 :: ys2) =
                      jsonString x2 ++ ',' :: ' ' :: jsonItems (y2 :: ys2)
                      from rfl, List.append_assoc] at h
                  obtain ⟨-, hr⟩ := jsonString_append_inj h
                  simp only [List.cons_append, List.cons.injEq] at hr
                  exact absurd hr.1 (by decide)
          | cons y1 ys1 =>
              cases t2 with
              | nil =>
                  rw [show jsonItems [x2] = jsonString x2 from rfl,
                    show jsonItems (x1 :: y1 :: ys1) =
                      jsonString x1 ++ ',' :: ' ' :: jsonItems (y1 :: ys1)
                      from rfl, List.append_assoc] at h
                  obtain ⟨-, hr⟩ := jsonString_append_inj h
                  simp only [List.cons_append, List.cons.injEq] at hr
                  exact absurd hr.1.symm (by decide)
              | cons y2 ys2 =>
                  rw [show jsonItems (x1 :: y1 :: ys1) =
                      jsonString x1 ++ ',' :: ' ' :: jsonItems (y1 :: ys1)
                      from rfl,
                    show jsonItems (x2 :: y2 :: ys2) =
                      jsonString x2 ++ ',' :: ' ' :: jsonItems (y2 :: ys2)
                      from rfl, List.append_assoc, List.append_assoc] at h
                  obtain ⟨hx, hr⟩ := jsonString_append_inj h
                  simp only [List.cons_append, List.cons.injEq, true_and] at hr
                  obtain ⟨ht, hr2⟩ := jsonItems_append_inj (y1 :: ys1) hr
                  exact ⟨by rw [hx, ht], hr2⟩

theorem jsonList_append_inj {xs1 xs2 : List String} {r1 r2 : List Char}
    (h : jsonList xs1 ++ r1 = jsonList xs2 ++ r2) : xs1 = xs2 ∧ r1 = r2 := by
  simp only [jsonList, List.cons_append, List.append_assoc,
    List.singleton_append, List.cons.injEq, true_and] at h
  exact jsonItems_append_inj xs1 h

/-- Full injectivity-with-remainder of the parameter JSON: the six
parameter values and the remainder are all recovered deterministically. -/
theorem dumpsGenParams_append_inj {p1 p2 : GenParams} {r1 r2 : List Char}
    (h : dumpsGenParams p1 ++ r1 = dumpsGenParams p2 ++ r2) :
    p1 = p2 ∧ r1 = r2 := by
  unfold dumpsGenParams at h
  simp only [List.cons_append, List.append_assoc, List.singleton_append,
    List.cons.injEq, true_and] at h
  have h := List.append_cancel_left h
  obtain ⟨hmt, h⟩ := intStr_append_inj
    (fun c hc => by
      have h' : some (',' : Char) = some c := hc
      rw [← Option.some.inj h']
      decide)
    (fun c hc => by
      have h' : some (',' : Char) = some c := hc
      rw [← Option.some.inj h']
      decide) h
  have h := List.append_cancel_left h
  obtain ⟨hrp, h⟩ := ratStr_append_inj
    (fun c hc => by
      have h' : some (',' : Char) = some c := hc
      rw [← Option.some.inj h']
      decide)
    (fun c hc => by
      have h' : some (',' : Char) = some c := hc
      rw [← Option.some.inj h']
      decide) h
  have h := List.append_cancel_left h
  obtain ⟨hstop, h⟩ := jsonList_append_inj h
  have h := List.append_cancel_left h
  obtain ⟨htemp, h⟩ := ratStr_append_inj
    (fun c hc => by
      have h' : some (',' : Char) = some c := hc
      rw [← Option.some.inj h']
      decide)
    (fun c hc => by
      have h' : some (',' : Char) = some c := hc
      rw [← Option.some.inj h']
      decide) h
  have h := List.append_cancel_left h
  obtain ⟨htk, h⟩ := intStr_append_inj
    (fun c hc => by
      have h' : some (',' : Char) = some c := hc
      rw [← Option.some.inj h']
      decide)
    (fun c hc => by
      have h' : some (',' : Char) = some c := hc
      rw [← Option.some.inj h']
      decide) h
  have h := List.append_cancel_left h
  obtain ⟨htp, h⟩ := ratStr_append_inj
    (fun c hc => by
      have h' : some ('}' : Char) = some c := hc
      rw [← Option.some.inj h']
      decide)
    (fun c hc => by
      have h' : some ('}' : Char) = some c := hc
      rw [← Option.some.inj h']
      decide) h
  simp only [List.cons.injEq, true_and] at h
  refine ⟨?_, h⟩
  cases p1
  cases p2
  simp only at hmt hrp hstop htemp htk htp
  simp [hmt, hrp, hstop, htemp, htk, htp]

/-- The separator colon between prompt and parameter JSON is located
unambiguously: equal keys have equal prompts. -/
theorem get_key_prompt_eq : ∀ (a1 : List Char) {a2 : List Char}
    (q1 q2 : GenParams),
    a1 ++ ':' :: dumpsGenParams q1 = a2 ++ ':' :: dumpsGenParams q2 →
      a1 = a2
  | [], a2, q1, q2 => by
      intro h
      cases a2 with
      | nil => rfl
      | cons c t =>
          simp only [List.nil_append, List.cons_append, List.cons.injEq] at h
          exact absurd h.2 (dumps_no_fake_split q1 q2 t)
  | c1 :: t1, a2, q1, q2 => by
      intro h
      cases a2 with
      | nil =>
          simp only [List.nil_append, List.cons_append, List.cons.injEq] at h
          exact absurd h.2.symm (dumps_no_fake_split q2 q1 t1)
      | cons c2 t2 =>
          simp only [List.cons_append, List.cons.injEq] at h
          exact congrArg₂ List.cons h.1 (get_key_prompt_eq t1 q1 q2 h.2)

/-- Injectivity of `get_key` over `(prompt, params)`. -/
theorem get_key_inj {pr1 pr2 : String} {q1 q2 : GenParams}
    (h : get_key pr1 q1 = get_key pr2 q2) : pr1 = pr2 ∧ q1 = q2 := by
  unfold get_key at h
  have hp := get_key_prompt_eq pr1.data q1 q2 h
  rw [hp] at h
  have hd := List.append_cancel_left h
  simp only [List.cons.injEq, true_and] at hd
  have hdd : dumpsGenParams q1 ++ ([] : List Char) =
      dumpsGenParams q2 ++ [] := by simpa using hd
  exact ⟨String.ext hp, (dumpsGenParams_append_inj hdd).1⟩

/-- **C7 counterexample**.  Two requests identical except for the order
of their stop sequences (`["a", "b"]` vs `["b", "a"]`) produce different
cache keys: `json.dumps(..., sort_keys=True)` sorts dictionary keys, not
the elements of the `stop` list. -/
theorem C7_counterexample :
    get_key "p" ⟨256, 7/10, 95/100, 40, 11/10, ["a", "b"]⟩ ≠
      get_key "p" ⟨256, 7/10, 95/100, 40, 11/10, ["b", "a"]⟩ := by
  intro h
  have hq := (get_key_inj h).2
  have hstop := congrArg GenParams.stop hq
  simp only at hstop
  simp at hstop

/-- **C7 amended** (the original claim is refuted by
`C7_counterexample`).  For requests that are identical except for their
stop-sequence lists, the computed cache fingerprints coincide precisely
when the stop lists are *equal as ordered lists*: reordering the stop
sequences changes the key (only the dictionary keys of the parameter
object are sorted before hashing). -/
theorem C7_stop_order_changes_key (prompt : String) (p : GenParams)
    (stop1 stop2 : List String) :
    get_key prompt { p with stop := stop1 } =
      get_key prompt { p with stop := stop2 } ↔ stop1 = stop2 := by
  constructor
  · intro h
    have hq := (get_key_inj h).2
    have := congrArg GenParams.stop hq
    simpa using this
  · intro h
    rw [h]

/-- Witness for C7's amended theorem: the equal-stop-lists direction at a
concrete input. -/
theorem C7_witness :
    get_key "p"
        { max_tokens := 256, temperature := 7/10, top_p := 95/100,
          top_k := 40, repeat_penalty := 11/10, stop := ["a", "b"] } =
      get_key "p"
        { max_tokens := 256, temperature := 7/10, top_p := 95/100,
          top_k := 40, repeat_penalty := 11/10, stop := ["a", "b"] } :=
  (C7_stop_order_changes_key "p"
      ⟨256, 7/10, 95/100, 40, 11/10, []⟩ ["a", "b"] ["a", "b"]).2 rfl

/-- **C10 counterexample** (the claim itself, refuted): there are no two
distinct `(prompt, parameters)` pairs sharing a cache key — in
particular the claimed collision shape (a prompt ending with `:` plus a
parameter JSON) does not exist, because `get_key` unconditionally appends
its own `":" ++ json.dumps(params)` and the JSON's grammar admits no
second split. -/
theorem C10_counterexample :
    ¬ ∃ (pr1 : String) (q1 : GenParams) (pr2 : String) (q2 : GenParams),
        (pr1, q1) ≠ (pr2, q2) ∧ get_key pr1 q1 = get_key pr2 q2 := by
  rintro ⟨pr1, q1, pr2, q2, hne, heq⟩
  obtain ⟨hp, hq⟩ := get_key_inj heq
  exact hne (by rw [hp, hq])

/-- **C10 amended**.  The cache key function is *injective* over the
completion endpoint's inputs: distinct `(prompt, parameters)` pairs
always produce distinct cache keys.  (This is a property of `get_key`
alone; the chat endpoint keys the same shared cache through
`get_key(json.dumps(messages), params)`, and injectivity over
`(prompt, parameters)` pairs says nothing about collisions between a
completion prompt and such a serialized message list.) -/
theorem C10_get_key_injective (pr1 pr2 : String) (q1 q2 : GenParams)
    (h : get_key pr1 q1 = get_key pr2 q2) : pr1 = pr2 ∧ q1 = q2 :=
  get_key_inj h

/-- Witness for C10's amended theorem at a concrete key equation. -/
theorem C10_witness :
    ("p" : String) = "p" ∧
      (⟨256, 7/10, 95/100, 40, 11/10, ["a"]⟩ : GenParams) =
        ⟨256, 7/10, 95/100, 40, 11/10, ["a"]⟩ :=
  C10_get_key_injective "p" "p" ⟨256, 7/10, 95/100, 40, 11/10, ["a"]⟩
    ⟨256, 7/10, 95/100, 40, 11/10, ["a"]⟩ rfl

end GCPylot
